import Mathlib

/-!
Verification development for the `simple_daq` repository
(`src/simple_daq/simple_daq.py`).

The Python module is shallowly embedded below:

* a configuration dictionary is a `Cfg` structure with one `Option Value`
  field per recognized key (the source seeds every recognized key from the
  defaults; unrecognized keys coming from a config file are added to the
  merged dict and to the used-key list simultaneously, so they cancel in
  the only place key counts are compared and are not modelled);
* `sys.exit(1)` together with the `sys.stderr.write` preceding it is
  modelled by `Except ExitErr`, where `ExitErr` carries the message text
  written to standard error and the exit status;
* Python `int(...)` string conversion is `parsePyInt`, `str.split()` is
  `pySplit`, `str(...)` of a value is `pyStr`, and list repetition
  (`lst * n`) is `pyListMul`;
* the comedi driver, the filesystem and the command line are external
  collaborators and enter as explicit parameters (`Device`, `Env`,
  `CmdLine`).
-/

/-- `os.path.basename(sys.argv[0])`; the concrete program name is an
external input, fixed here to the installed console-script name.  No
theorem depends on its contents. -/
def PROG_NAME : String := "daq_acquire"

def MIN_GAIN : Int := 0
def MAX_GAIN : Int := 3

/-- The recognized configuration keys (the keys of the default dict in
`set_config`). -/
inductive Key where
  | device
  | sample_num
  | sample_freq
  | channels
  | gains
  | subdev
  | output_file
  | config_file
  | verbose
  | plot
  | aref
deriving DecidableEq, Repr

def allKeys : List Key :=
  [Key.device, Key.sample_num, Key.sample_freq, Key.channels, Key.gains,
   Key.subdev, Key.output_file, Key.config_file, Key.verbose, Key.plot, Key.aref]

/-- A Python value stored in the configuration dict: a string, an int, a
list of ints, a bool, or `None` (written `null`). -/
inductive Value where
  | str : String → Value
  | int : Int → Value
  | intList : List Int → Value
  | bool : Bool → Value
  | null : Value
deriving DecidableEq, Repr

/-- A configuration dictionary restricted to the recognized keys; a field
of `Option.none` means the key is absent from the dict. -/
@[ext] structure Cfg where
  device : Option Value := Option.none
  sample_num : Option Value := Option.none
  sample_freq : Option Value := Option.none
  channels : Option Value := Option.none
  gains : Option Value := Option.none
  subdev : Option Value := Option.none
  output_file : Option Value := Option.none
  config_file : Option Value := Option.none
  verbose : Option Value := Option.none
  plot : Option Value := Option.none
  aref : Option Value := Option.none
deriving DecidableEq, Repr

def Cfg.get (c : Cfg) : Key → Option Value
  | Key.device => c.device
  | Key.sample_num => c.sample_num
  | Key.sample_freq => c.sample_freq
  | Key.channels => c.channels
  | Key.gains => c.gains
  | Key.subdev => c.subdev
  | Key.output_file => c.output_file
  | Key.config_file => c.config_file
  | Key.verbose => c.verbose
  | Key.plot => c.plot
  | Key.aref => c.aref

/-- `config.update(d)`: keys present in `d` overwrite those of `c`. -/
def Cfg.update (c d : Cfg) : Cfg where
  device := (d.device).orElse fun _ => c.device
  sample_num := (d.sample_num).orElse fun _ => c.sample_num
  sample_freq := (d.sample_freq).orElse fun _ => c.sample_freq
  channels := (d.channels).orElse fun _ => c.channels
  gains := (d.gains).orElse fun _ => c.gains
  subdev := (d.subdev).orElse fun _ => c.subdev
  output_file := (d.output_file).orElse fun _ => c.output_file
  config_file := (d.config_file).orElse fun _ => c.config_file
  verbose := (d.verbose).orElse fun _ => c.verbose
  plot := (d.plot).orElse fun _ => c.plot
  aref := (d.aref).orElse fun _ => c.aref

/-- The `del file_config[key] for key in used_config_keys` loops: remove
every key of `ks` from `c` (absent keys are silently skipped, as the
`try/except` in the source does). -/
def removeKeys (c : Cfg) (ks : List Key) : Cfg where
  device := if Key.device ∈ ks then Option.none else c.device
  sample_num := if Key.sample_num ∈ ks then Option.none else c.sample_num
  sample_freq := if Key.sample_freq ∈ ks then Option.none else c.sample_freq
  channels := if Key.channels ∈ ks then Option.none else c.channels
  gains := if Key.gains ∈ ks then Option.none else c.gains
  subdev := if Key.subdev ∈ ks then Option.none else c.subdev
  output_file := if Key.output_file ∈ ks then Option.none else c.output_file
  config_file := if Key.config_file ∈ ks then Option.none else c.config_file
  verbose := if Key.verbose ∈ ks then Option.none else c.verbose
  plot := if Key.plot ∈ ks then Option.none else c.plot
  aref := if Key.aref ∈ ks then Option.none else c.aref

/-- `dict.keys()` (restricted to the recognized keys, in a fixed order;
only membership and length of this list are ever used by the source). -/
def Cfg.keysList (c : Cfg) : List Key :=
  allKeys.filter fun k => (c.get k).isSome

/-- Worker for `pySplit`: `acc` holds the characters of the current token
in reverse. -/
def pySplitAux : List Char → List Char → List String
  | [], acc => if acc = [] then [] else [String.mk acc.reverse]
  | c :: cs, acc =>
    if c.isWhitespace then
      if acc = [] then pySplitAux cs []
      else String.mk acc.reverse :: pySplitAux cs []
    else pySplitAux cs (c :: acc)

/-- Python `str.split()`: split on runs of whitespace, dropping empty
pieces.  (Python additionally treats `\f` and `\v` as whitespace; those
characters never appear in the inputs the claims quantify over.) -/
def pySplit (s : String) : List String :=
  pySplitAux s.data []

/-- Digit-string to number; `Option.none` when empty or a non-digit
appears. -/
def digitsToNat (cs : List Char) : Option Nat :=
  if cs.isEmpty then Option.none
  else if cs.all Char.isDigit then
    some (cs.foldl (fun a c => 10 * a + (c.toNat - 48)) 0)
  else Option.none

/-- Strip leading and trailing whitespace from a character list. -/
def pyStripChars (cs : List Char) : List Char :=
  ((cs.dropWhile Char.isWhitespace).reverse.dropWhile Char.isWhitespace).reverse

/-- Python `int(s)` on a string: optional surrounding whitespace, optional
sign, decimal digits; `Option.none` models the `ValueError` path. -/
def parsePyInt (s : String) : Option Int :=
  match pyStripChars s.data with
  | [] => Option.none
  | c :: rest =>
    if c = '+' then (digitsToNat rest).map Int.ofNat
    else if c = '-' then (digitsToNat rest).map fun n => -(Int.ofNat n)
    else (digitsToNat (c :: rest)).map Int.ofNat

/-- Python `int(v)` for the values that occur in a configuration dict.
(`int(None)` and `int([...])` raise `TypeError`, which the source never
triggers on the checked keys; they are folded into the failure case.) -/
def pyIntValue : Value → Option Int
  | Value.int n => some n
  | Value.bool b => some (if b then 1 else 0)
  | Value.str s => parsePyInt s
  | _ => Option.none

/-- Python `str()` of a stored list, e.g. `[0, 1, 2]`. -/
def pyListRepr (l : List Int) : String :=
  "[" ++ String.intercalate ", " (l.map toString) ++ "]"

/-- Python `str()` / `%s`-formatting of a stored value. -/
def pyStr : Value → String
  | Value.str s => s
  | Value.int n => toString n
  | Value.intList l => pyListRepr l
  | Value.bool b => if b then "True" else "False"
  | Value.null => "None"

/-- Python list repetition `lst * n`. -/
def pyListMul (l : List Int) (n : Nat) : List Int :=
  (List.replicate n l).flatten

/-- The message written to `sys.stderr` together with the `sys.exit`
status; every failure path of the source uses status 1. -/
structure ExitErr where
  msg : String
  code : Nat
deriving DecidableEq, Repr

/-- `[int(x) for x in v.split()]`, used for the non-list `channels` and
`gains` values.  Non-string non-list values would raise `AttributeError`
in the source; that path is never reached on validated inputs and is
folded into the failure case. -/
def strToIntList (s : String) : Option (List Int) :=
  (pySplit s).mapM parsePyInt

/-- The `sample_num` paragraph of `process_config`. -/
def checkSampleNum (c : Cfg) (s : String) : Except ExitErr Cfg :=
  match c.sample_num with
  | Option.none => Except.ok c
  | some v =>
    match pyIntValue v with
    | Option.none =>
      Except.error ⟨PROG_NAME ++ ": error: " ++ s ++ ": invalid sample number value\n", 1⟩
    | some n =>
      if n ≤ 0 then
        Except.error ⟨PROG_NAME ++ ": error: " ++ s ++ ": number of sample must be > 0\n", 1⟩
      else Except.ok { c with sample_num := some (Value.int n) }

/-- The `sample_freq` paragraph of `process_config`. -/
def checkSampleFreq (c : Cfg) (s : String) : Except ExitErr Cfg :=
  match c.sample_freq with
  | Option.none => Except.ok c
  | some v =>
    match pyIntValue v with
    | Option.none =>
      Except.error ⟨PROG_NAME ++ ": error: " ++ s ++ ": invalid sample frequency value\n", 1⟩
    | some n =>
      if n ≤ 0 then
        Except.error ⟨PROG_NAME ++ ": error: " ++ s ++ ": sample frequency must be > 0\n", 1⟩
      else Except.ok { c with sample_freq := some (Value.int n) }

/-- The `channels` paragraph of `process_config`: convert a non-list value
by splitting and parsing, then reject any negative channel. -/
def checkChannels (c : Cfg) (s : String) : Except ExitErr Cfg :=
  match c.channels with
  | Option.none => Except.ok c
  | some v =>
    let parsed : Except ExitErr (List Int) :=
      match v with
      | Value.intList l => Except.ok l
      | Value.str st =>
        match strToIntList st with
        | some l => Except.ok l
        | Option.none =>
          Except.error ⟨PROG_NAME ++ ": error: " ++ s ++ ": invalid channel values\n", 1⟩
      | _ => Except.error ⟨PROG_NAME ++ ": error: " ++ s ++ ": invalid channel values\n", 1⟩
    match parsed with
    | Except.error e => Except.error e
    | Except.ok l =>
      if l.any fun x => x < 0 then
        Except.error ⟨PROG_NAME ++ ": error: " ++ s ++ ": channel values must be >= 0\n", 1⟩
      else Except.ok { c with channels := some (Value.intList l) }

/-- The `gains` paragraph of `process_config`: convert a non-list value,
then reject any gain outside `[MIN_GAIN, MAX_GAIN]`. -/
def checkGains (c : Cfg) (s : String) : Except ExitErr Cfg :=
  match c.gains with
  | Option.none => Except.ok c
  | some v =>
    let parsed : Except ExitErr (List Int) :=
      match v with
      | Value.intList l => Except.ok l
      | Value.str st =>
        match strToIntList st with
        | some l => Except.ok l
        | Option.none =>
          Except.error
            ⟨PROG_NAME ++ ": error: " ++ s ++ ": invalid gain values " ++ pyStr v ++ "\n", 1⟩
      | _ =>
        Except.error
          ⟨PROG_NAME ++ ": error: " ++ s ++ ": invalid gain values " ++ pyStr v ++ "\n", 1⟩
    match parsed with
    | Except.error e => Except.error e
    | Except.ok l =>
      if l.any fun x => x < MIN_GAIN ∨ x > MAX_GAIN then
        Except.error ⟨PROG_NAME ++ ": error: " ++ s ++ ": gains must be between 0 and 3\n", 1⟩
      else Except.ok { c with gains := some (Value.intList l) }

/-- The message of the gains/channels length cross-check failure; it
lists both the channels list and the gains list. -/
def gainsMismatchErr (cs gs : List Int) (s : String) : ExitErr :=
  ⟨"\n \tchannels: " ++ pyListRepr cs ++ "\n"
     ++ "\tgains: " ++ pyListRepr gs ++ "\n\n"
     ++ PROG_NAME ++ ": error: " ++ s
     ++ ": the number of gain values be equal to 1 or to the number of channels\n", 1⟩

/-- The gains/channels cross-check and singleton broadcast of
`process_config`.  At this point of the pipeline both values, when
present, have already been converted to int lists; other shapes cannot
occur and are mapped to the failure case. -/
def checkGainsChannels (c : Cfg) (s : String) : Except ExitErr Cfg :=
  match c.gains, c.channels with
  | some (Value.intList gs), some (Value.intList cs) =>
    if ¬ (gs.length = cs.length ∨ gs.length = 1) then
      Except.error (gainsMismatchErr cs gs s)
    else if gs.length = 1 then
      Except.ok { c with gains := some (Value.intList (pyListMul gs cs.length)) }
    else Except.ok c
  | some _, some (Value.intList _) => Except.error ⟨PROG_NAME ++ ": internal", 1⟩
  | some (Value.intList _), some _ => Except.error ⟨PROG_NAME ++ ": internal", 1⟩
  | some _, some _ => Except.error ⟨PROG_NAME ++ ": internal", 1⟩
  | _, _ => Except.ok c

/-- The `subdev` paragraph of `process_config`: integer conversion only,
no sign check (the source message has no trailing newline). -/
def checkSubdev (c : Cfg) (s : String) : Except ExitErr Cfg :=
  match c.subdev with
  | Option.none => Except.ok c
  | some v =>
    match pyIntValue v with
    | Option.none =>
      Except.error
        ⟨PROG_NAME ++ ": error: " ++ s ++ ": invalid subdevice value \x27" ++ pyStr v ++ "\x27", 1⟩
    | some n => Except.ok { c with subdev := some (Value.int n) }

/-- `config[', 'aref'] in ('diff', 'ground', 'common')`: exact,
case-sensitive string membership; any non-string value is not a member. -/
def arefOk : Value → Bool
  | Value.str s => s = "diff" ∨ s = "ground" ∨ s = "common"
  | _ => false

/-- The `aref` paragraph of `process_config`: no case normalization is
performed before the membership test. -/
def checkAref (c : Cfg) (s : String) : Except ExitErr Cfg :=
  match c.aref with
  | Option.none => Except.ok c
  | some v =>
    if arefOk v then Except.ok c
    else
      Except.error
        ⟨PROG_NAME ++ ": error: " ++ s ++ ": invalid reference mode \x27" ++ pyStr v ++ "\x27", 1⟩

/-- `process_config(config, src_str)`: the hard-stop validation gate of
the source, run paragraph by paragraph in source order.  In Python it
mutates `config` in place and exits the process on failure; here the
updated dict is returned in `Except.ok` and the failure is
`Except.error`. -/
def process_config (c : Cfg) (s : String) : Except ExitErr Cfg :=
  (checkSampleNum c s).bind fun c1 =>
  (checkSampleFreq c1 s).bind fun c2 =>
  (checkChannels c2 s).bind fun c3 =>
  (checkGains c3 s).bind fun c4 =>
  (checkGainsChannels c4 s).bind fun c5 =>
  (checkSubdev c5 s).bind fun c6 =>
  checkAref c6 s

/-- The default configuration dict seeded at the top of `set_config`. -/
def defaultConfig : Cfg where
  device := some (Value.str "/dev/comedi0")
  sample_num := some (Value.int 1000)
  sample_freq := some (Value.int 1000)
  channels := some (Value.str "0 1 2 3 4 5 6 7")
  gains := some (Value.str "0")
  subdev := some (Value.int 0)
  output_file := some Value.null
  config_file := some Value.null
  verbose := some (Value.bool false)
  plot := some (Value.bool false)
  aref := some (Value.str "ground")

/-- The already-parsed command line: `verbose` and `plot` record whether
the `store_true` flag was present; every other field is `Option.some`
exactly when the option was given (optparse itself parses the `int`-typed
options). -/
structure CmdLine where
  verbose : Bool := false
  plot : Bool := false
  device : Option String := Option.none
  sample_num : Option Int := Option.none
  sample_freq : Option Int := Option.none
  channels : Option String := Option.none
  gains : Option String := Option.none
  subdev : Option Int := Option.none
  output_file : Option String := Option.none
  config_file : Option String := Option.none
  aref : Option String := Option.none
deriving DecidableEq, Repr

/-- `process_options()`: build the optparse value dict and delete every
key whose value is `None`.  `verbose` and `plot` carry the optparse
default `False` (not `None`) when their flag is absent, so those two keys
survive the deletion loop on every invocation. -/
def process_options (cl : CmdLine) : Cfg where
  device := (cl.device).map Value.str
  sample_num := (cl.sample_num).map Value.int
  sample_freq := (cl.sample_freq).map Value.int
  channels := (cl.channels).map Value.str
  gains := (cl.gains).map Value.str
  subdev := (cl.subdev).map Value.int
  output_file := (cl.output_file).map Value.str
  config_file := (cl.config_file).map Value.str
  verbose := some (Value.bool cl.verbose)
  plot := some (Value.bool cl.plot)
  aref := (cl.aref).map Value.str

/-- Python `str.lower()`. -/
def pyLower (s : String) : String :=
  String.mk (s.data.map Char.toLower)

/-- The uncaught Python exception raised by `parse_config_file` when
`reduce` is applied to an empty sequence. -/
inductive PyErr where
  | typeError
deriving DecidableEq, Repr

/-- Python dict assignment `d[k] = v` on an association list. -/
def dictSet (d : List (String × String)) (k v : String) : List (String × String) :=
  (d.filter fun p => ¬ p.1 = k) ++ [(k, v)]

/-- `parse_config_file`, over the list of lines returned by
`fid.readlines()`: skip empty lines and lines whose first token is
exactly `#`; otherwise map the lowercased first token to the remaining
tokens rejoined with single spaces via
`reduce(lambda x,y: x+' '+y, line[1:])`.  On a line with exactly one
token the `reduce` receives an empty sequence and raises `TypeError`,
which nothing catches. -/
def parse_config_line (config : List (String × String)) (line : String) :
    Except PyErr (List (String × String)) :=
  match pySplit line with
  | [] => Except.ok config
  | t :: rest =>
    if t = "#" then Except.ok config
    else
      match rest with
      | [] => Except.error PyErr.typeError
      | r :: rs =>
        Except.ok (dictSet config (pyLower t) (rs.foldl (fun x y => x ++ " " ++ y) r))

/-- The loop of `parse_config_file`, folded over the lines. -/
def parse_config_file (lines : List String) : Except PyErr (List (String × String)) :=
  lines.foldlM parse_config_line []

/-- The filesystem as `set_config` sees it: for each of the three
configuration-file locations, whether `os.path.exists` holds and the
parsed key/value content (the `parse_config_file` result restricted to
the recognized keys; file values are raw strings). -/
structure Env where
  namedExists : Bool := false
  namedFile : Key → Option String := fun _ => Option.none
  currExists : Bool := false
  currFile : Key → Option String := fun _ => Option.none
  homeExists : Bool := false
  homeFile : Key → Option String := fun _ => Option.none

/-- Lift a parsed config file (string values) to a configuration dict. -/
def fileAsCfg (f : Key → Option String) : Cfg where
  device := (f Key.device).map Value.str
  sample_num := (f Key.sample_num).map Value.str
  sample_freq := (f Key.sample_freq).map Value.str
  channels := (f Key.channels).map Value.str
  gains := (f Key.gains).map Value.str
  subdev := (f Key.subdev).map Value.str
  output_file := (f Key.output_file).map Value.str
  config_file := (f Key.config_file).map Value.str
  verbose := (f Key.verbose).map Value.str
  plot := (f Key.plot).map Value.str
  aref := (f Key.aref).map Value.str

/-- Lines 365-392 of the source: the `-i` config-file step.  `p` is the
merged dict so far together with the used-key list; `options_config` is
the validated command-line bag whose `config_file` entry triggers the
step.  A named path that does not exist is a hard failure before any
other file source is read. -/
def namedFileStep (env : Env) (options_config : Cfg) (p : Cfg × List Key) :
    Except ExitErr (Cfg × List Key) :=
  match options_config.config_file with
  | Option.none => Except.ok p
  | some cfv =>
    if env.namedExists then
      match process_config (removeKeys (fileAsCfg env.namedFile) p.2) "file config option -i" with
      | Except.error e => Except.error e
      | Except.ok fc => Except.ok (p.1.update fc, p.2 ++ fc.keysList)
    else
      Except.error
        ⟨PROG_NAME ++ ": error: option -i: configuration file \x27" ++ pyStr cfv
           ++ "\x27 not found", 1⟩

/-- Lines 408-435 of the source: one directory config-file step (used for
both `daq-config` and `.daq-acquire`): if some recognized key is still
unused and the file exists, parse it, drop the used keys, validate and
merge, extending the used-key list. -/
def dirFileStep (src : String) (fileExists : Bool) (file : Key → Option String)
    (p : Cfg × List Key) : Except ExitErr (Cfg × List Key) :=
  if ¬ p.2.length = p.1.keysList.length ∧ fileExists then
    match process_config (removeKeys (fileAsCfg file) p.2) src with
    | Except.error e => Except.error e
    | Except.ok cc => Except.ok (p.1.update cc, p.2 ++ cc.keysList)
  else Except.ok p

/-- `set_config()`: seed with defaults and validate; validate and merge
the command-line option bag, recording its keys as used; then, in order:
the `-i` config file (hard failure when the named path does not exist),
the current-directory file `daq-config` and the home-directory file
`.daq-acquire`, each read only when some key is still unused, stripped of
used keys, validated and merged; finally validate the combined dict.
(The `except IOError` re-parse guard and the verbose printing are I/O
details with no effect on the returned dict and are not modelled.) -/
def set_config (cl : CmdLine) (env : Env) : Except ExitErr Cfg :=
  match process_config defaultConfig "default config" with
  | Except.error e => Except.error e
  | Except.ok config0 =>
  match process_config (process_options cl) "command line config" with
  | Except.error e => Except.error e
  | Except.ok options_config =>
  (namedFileStep env options_config (config0.update options_config, options_config.keysList)).bind
    (fun p2 => (dirFileStep "daq_config" env.currExists env.currFile p2).bind
      (fun p3 => (dirFileStep ".daq_acquire" env.homeExists env.homeFile p3).bind
        (fun p4 => process_config p4.1 "combined config")))

-- ---------------------------------------------------------------------
-- The acquisition routine (`acquire_data`)
-- ---------------------------------------------------------------------

/-- Comedi library constants (external collaborator; no claim depends on
the numeric values). -/
def AREF_GROUND : Nat := 0
def AREF_COMMON : Nat := 1
def AREF_DIFF : Nat := 2
def TRIG_NOW : Nat := 2
def TRIG_TIMER : Nat := 8
def TRIG_COUNT : Nat := 32
def DEFAULT_CMD_FLAGS : Nat := 0
def DEFAULT_CMD_SART_ARG : Nat := 0
def DEFAULT_CMD_CONVERT_ARG : Nat := 5000

def CMD_TEST_MSG : List String :=
  ["success", "invalid source", "source conflict", "invalid argument",
   "argument conflict", "invalid chanlist"]

/-- The comedi `CR_PACK(chan, rng, aref)` macro (external collaborator;
packs channel, range index and reference code into one word). -/
def cr_pack (chan rng ar : Nat) : Nat :=
  chan + rng * 65536 + (ar % 4) * 16777216

/-- The comedi command descriptor filled in by `acquire_data`.  The
source assigns `cmd.sart_arg` (a typo preserved from the code;
`start_arg` is never assigned). -/
structure ComediCmd where
  subdev : Int
  flags : Nat
  start_src : Nat
  sart_arg : Nat
  scan_begin_src : Nat
  scan_begin_arg : Nat
  convert_src : Nat
  convert_arg : Nat
  scan_end_src : Nat
  scan_end_arg : Nat
  stop_src : Nat
  stop_arg : Int
  chanlist : List Nat
  chanlist_len : Nat
deriving DecidableEq, Repr

/-- Lines 477-491 of the source: construct the comedi command.  The
scan-begin interval is `int(NANO_SEC/config[\x27sample_freq\x27])`:
Python `int()` truncates the IEEE-double quotient toward zero.  For every
integer `freq ≥ 1` the correctly rounded double quotient `1e9/freq` lies
strictly between the two integers surrounding the exact rational value
(the rounding error is below `x * 2^-52` while the distance from the
exact value to the nearest other integer is at least `1/freq`, and
`(1e9/freq) * 2^-52 * freq < 1`), so the truncation equals the natural
floor division used here. -/
def build_cmd (subdev freq snum : Int) (channel_list : List Nat) (nchans : Nat) : ComediCmd where
  subdev := subdev
  flags := DEFAULT_CMD_FLAGS
  start_src := TRIG_NOW
  sart_arg := DEFAULT_CMD_SART_ARG
  scan_begin_src := TRIG_TIMER
  scan_begin_arg := 1000000000 / freq.toNat
  convert_src := TRIG_TIMER
  convert_arg := DEFAULT_CMD_CONVERT_ARG
  scan_end_src := TRIG_COUNT
  scan_end_arg := nchans
  stop_src := TRIG_COUNT
  stop_arg := snum
  chanlist := channel_list
  chanlist_len := nchans

/-- One `os.read` result delivered by the device stream: a successful
read returning a byte string, or an `OSError` with the given errno. -/
inductive ReadResult where
  | chunk : List Nat → ReadResult
  | oserr : Nat → ReadResult
deriving DecidableEq, Repr

/-- How the block-read loop ends: `done` with the accumulated bytes when
`bytes_read == bytes_total` is hit; `raised` when a non-errno-4 `OSError`
propagates; `starved` when the modelled stream is exhausted while the
loop is still waiting for more bytes (in the source the loop would block
or spin forever at this point — it has no timeout). -/
inductive ReadOutcome where
  | done : List Nat → ReadOutcome
  | raised : Nat → ReadOutcome
  | starved : List Nat → ReadOutcome
deriving DecidableEq, Repr

/-- Lines 522-538 of the source: the block-read loop.  Each iteration
issues `os.read(fd, bytes_total)`; an `OSError` with errno 4 is retried
in place, any other `OSError` is re-raised; otherwise the returned bytes
are appended and the loop ends only when the accumulated count equals
`bytes_total` exactly. -/
def read_loop (bytes_total : Nat) (acc : List Nat) (stream : List ReadResult) : ReadOutcome :=
  match stream with
  | [] => ReadOutcome.starved acc
  | ReadResult.oserr e :: rest =>
    if e = 4 then read_loop bytes_total acc rest else ReadOutcome.raised e
  | ReadResult.chunk data :: rest =>
    if (acc ++ data).length = bytes_total then ReadOutcome.done (acc ++ data)
    else read_loop bytes_total (acc ++ data) rest

/-- `numpy.fromstring(datastr, numpy.uint16)` on a little-endian host:
pair consecutive bytes as `lo + 256 * hi`.  (`fromstring` rejects an
odd-length buffer; the loop only ends at the even count
`2 * sample_num * nchans`.) -/
def bytesToU16 : List Nat → List Nat
  | lo :: hi :: rest => (lo + 256 * hi) :: bytesToU16 rest
  | _ => []

/-- `dataarray[i::step]`: every `step`-th element starting at index
`i`. -/
def sliceStep (l : List Nat) (i step : Nat) : List Nat :=
  (l.enum.filter fun p => i ≤ p.1 ∧ (p.1 - i) % step = 0).map fun p => p.2

/-- The comedi device as `acquire_data` sees it: whether `comedi_open`
returns a handle, the result code of each `comedi_command_test` call, the
`comedi_command` return value, the byte stream behind the device file
descriptor, and the calibration conversion
(`comedi_get_maxdata`/`comedi_get_range`/`comedi_to_phys`, folded into
one external function from subdevice, channel, gain and raw code to an
abstract physical value). -/
structure Device where
  openOk : Bool
  testResult : Nat → Nat
  commandRet : Int
  stream : List ReadResult
  toPhys : Nat → Nat → Nat → Nat → Int

/-- How `acquire_data` ends. `exit c` is `sys.exit(c)`; `valueError` is
the explicit `raise ValueError` on an unknown reference mode; `crashed`
is any other uncaught Python exception (only reachable from
configurations that `process_config` would have rejected); `osError`,
`starved` come from the read loop; `ok` carries the per-channel converted
sample columns. -/
inductive AcqOutcome where
  | exit : Nat → AcqOutcome
  | valueError : AcqOutcome
  | crashed : AcqOutcome
  | osError : Nat → AcqOutcome
  | starved : List Nat → AcqOutcome
  | ok : List (List Int) → AcqOutcome
deriving DecidableEq, Repr

/-- The observable result of `acquire_data`: the messages written to
standard error, in order, the way the call ended, and — once it has been
built — the command descriptor handed to `comedi_command_test` and
`comedi_command`.  (Verbose printing goes to standard output and is not
modelled; the floating-point time vector of the return value performs no
I/O and no exit and is likewise outside the model.) -/
structure AcqTrace where
  stderrLog : List String
  outcome : AcqOutcome
  cmd : Option ComediCmd := Option.none
deriving DecidableEq, Repr

/-- `acquire_data(config)`: open the device (exit 1 on failure), map the
lowercased `aref` string to a reference code (`ValueError` otherwise),
pack the chanlist, build the command, run `comedi_command_test` four
times keeping the last result `ret`, report a configuration failure to
standard error when `ret` is non-zero but continue, execute the command
(exit 1 on failure), then block-read `2*sample_num*nchans` bytes and
convert them per channel.  Ill-typed configuration values (which
`process_config` would have rejected) surface as Python exceptions:
`gains` shorter than `channels` is an `IndexError`, a non-positive
`sample_freq` or `sample_num` a `ZeroDivisionError`/`OSError` in the
source, and a test result outside `CMD_TEST_MSG` an `IndexError`; all
are modelled as `crashed`. -/
def acquire_data (c : Cfg) (dev : Device) : AcqTrace :=
  if ¬ dev.openOk then
    ⟨[PROG_NAME ++ ": error: unable to open openning Comedi device"], AcqOutcome.exit 1,
     Option.none⟩
  else
    match c.channels, c.gains, c.aref, c.subdev, c.sample_freq, c.sample_num with
    | some (Value.intList chans), some (Value.intList gains), some (Value.str arefs),
      some (Value.int subdev), some (Value.int freq), some (Value.int snum) =>
      let nchans := chans.length
      let aref_str := pyLower arefs
      let arefCode : Option Nat :=
        if aref_str = "diff" then some AREF_DIFF
        else if aref_str = "common" then some AREF_COMMON
        else if aref_str = "ground" then some AREF_GROUND
        else Option.none
      match arefCode with
      | Option.none => ⟨[], AcqOutcome.valueError, Option.none⟩
      | some ar =>
        if gains.length < nchans then ⟨[], AcqOutcome.crashed, Option.none⟩
        else if freq ≤ 0 ∨ snum ≤ 0 then ⟨[], AcqOutcome.crashed, Option.none⟩
        else
          let channel_list := (List.range nchans).map fun i =>
            cr_pack (chans.getD i 0).toNat (gains.getD i 0).toNat ar
          let cmd := build_cmd subdev freq snum channel_list nchans
          let ret := dev.testResult 3
          if 6 ≤ ret then ⟨[], AcqOutcome.crashed, some cmd⟩
          else
            let log :=
              if ¬ ret = 0 then
                [PROG_NAME ++ ": error: unable to configure daq device - "
                   ++ CMD_TEST_MSG.getD ret ""]
              else []
            if ¬ dev.commandRet = 0 then
              ⟨log ++ [PROG_NAME ++ ": error: unable to execute comedi command"],
               AcqOutcome.exit 1, some cmd⟩
            else
              let bytes_total := 2 * snum.toNat * nchans
              match read_loop bytes_total [] dev.stream with
              | ReadOutcome.raised e => ⟨log, AcqOutcome.osError e, some cmd⟩
              | ReadOutcome.starved acc => ⟨log, AcqOutcome.starved acc, some cmd⟩
              | ReadOutcome.done data =>
                let dataarray := bytesToU16 data
                let samples := (List.range nchans).map fun i =>
                  (sliceStep dataarray i nchans).map fun x =>
                    dev.toPhys subdev.toNat (chans.getD i 0).toNat (gains.getD i 0).toNat x
                ⟨log, AcqOutcome.ok samples, some cmd⟩
    | _, _, _, _, _, _ => ⟨[], AcqOutcome.crashed, Option.none⟩

-- ---------------------------------------------------------------------
-- Basic infrastructure lemmas
-- ---------------------------------------------------------------------

instance {ε α : Type} [DecidableEq ε] [DecidableEq α] : DecidableEq (Except ε α) :=
  fun x y =>
    match x, y with
    | Except.ok a, Except.ok b =>
      if h : a = b then isTrue (by rw [h]) else isFalse (by simp [h])
    | Except.error e, Except.error f =>
      if h : e = f then isTrue (by rw [h]) else isFalse (by simp [h])
    | Except.ok _, Except.error _ => isFalse (by simp)
    | Except.error _, Except.ok _ => isFalse (by simp)

theorem mem_allKeys (k : Key) : k ∈ allKeys := by cases k <;> decide

theorem Cfg.get_update (c d : Cfg) (k : Key) :
    (c.update d).get k = ((d.get k).orElse fun _ => c.get k) := by
  cases k <;> rfl

theorem get_removeKeys (c : Cfg) (ks : List Key) (k : Key) :
    (removeKeys c ks).get k = if k ∈ ks then Option.none else c.get k := by
  cases k <;> rfl

theorem get_fileAsCfg (f : Key → Option String) (k : Key) :
    (fileAsCfg f).get k = (f k).map Value.str := by
  cases k <;> rfl

theorem mem_keysList {c : Cfg} {k : Key} : k ∈ c.keysList ↔ (c.get k).isSome := by
  unfold Cfg.keysList
  rw [List.mem_filter]
  simp [mem_allKeys]

theorem keysList_nodup (c : Cfg) : c.keysList.Nodup := by
  apply List.Nodup.filter
  decide

theorem keysList_subset (c : Cfg) : c.keysList ⊆ allKeys := by
  intro k hk
  exact mem_allKeys k

-- ---------------------------------------------------------------------
-- Per-key normalization (what a successful validation does to one value)
-- ---------------------------------------------------------------------

/-- The conversion applied by `process_config` to a non-list `channels`
or `gains` value (`[int(x) for x in v.split()]`), or the identity on an
already-converted list. -/
def asIntList : Value → Option (List Int)
  | Value.intList l => some l
  | Value.str st => strToIntList st
  | _ => Option.none

/-- The per-key value transformation performed by a successful run of
`process_config`: integer conversion and sign check for `sample_num` and
`sample_freq`, integer conversion for `subdev`, list conversion and range
checks for `channels` and `gains`, the membership check for `aref`, and
the identity on the unchecked keys.  (`Option.none` is the hard-stop
path; the cross-key gains broadcast is treated separately.) -/
def normAt : Key → Value → Option Value
  | Key.sample_num, v =>
    (pyIntValue v).bind fun n => if n ≤ 0 then Option.none else some (Value.int n)
  | Key.sample_freq, v =>
    (pyIntValue v).bind fun n => if n ≤ 0 then Option.none else some (Value.int n)
  | Key.subdev, v => (pyIntValue v).map Value.int
  | Key.channels, v =>
    (asIntList v).bind fun l =>
      if l.any fun x => x < 0 then Option.none else some (Value.intList l)
  | Key.gains, v =>
    (asIntList v).bind fun l =>
      if l.any fun x => x < MIN_GAIN ∨ x > MAX_GAIN then Option.none
      else some (Value.intList l)
  | Key.aref, v => if arefOk v then some v else Option.none
  | _, v => some v

-- ---------------------------------------------------------------------
-- Characterization of the individual validation paragraphs
-- ---------------------------------------------------------------------

theorem checkSampleNum_ok {c : Cfg} {s : String} {c1 : Cfg}
    (h : checkSampleNum c s = Except.ok c1) :
    c1.sample_num = (c.sample_num).bind (normAt Key.sample_num) ∧
    ((c.sample_num).isSome → (c1.sample_num).isSome) ∧
    (∀ k, ¬ k = Key.sample_num → c1.get k = c.get k) := by
  cases hv : c.sample_num with
  | none =>
    simp only [checkSampleNum, hv] at h
    injection h with h
    subst h
    exact ⟨by simp [hv], by simp, fun k _ => rfl⟩
  | some v =>
    simp only [checkSampleNum, hv] at h
    cases hn : pyIntValue v with
    | none =>
      simp only [hn] at h
      exact Except.noConfusion h
    | some n =>
      simp only [hn] at h
      by_cases hle : n ≤ 0
      · rw [if_pos hle] at h
        exact Except.noConfusion h
      · rw [if_neg hle] at h
        injection h with h
        subst h
        refine ⟨by simp [hv, normAt, hn, hle], by simp, ?_⟩
        intro k hk
        cases k <;> first | rfl | exact absurd rfl hk

theorem checkSampleFreq_ok {c : Cfg} {s : String} {c1 : Cfg}
    (h : checkSampleFreq c s = Except.ok c1) :
    c1.sample_freq = (c.sample_freq).bind (normAt Key.sample_freq) ∧
    ((c.sample_freq).isSome → (c1.sample_freq).isSome) ∧
    (∀ k, ¬ k = Key.sample_freq → c1.get k = c.get k) := by
  cases hv : c.sample_freq with
  | none =>
    simp only [checkSampleFreq, hv] at h
    injection h with h
    subst h
    exact ⟨by simp [hv], by simp, fun k _ => rfl⟩
  | some v =>
    simp only [checkSampleFreq, hv] at h
    cases hn : pyIntValue v with
    | none =>
      simp only [hn] at h
      exact Except.noConfusion h
    | some n =>
      simp only [hn] at h
      by_cases hle : n ≤ 0
      · rw [if_pos hle] at h
        exact Except.noConfusion h
      · rw [if_neg hle] at h
        injection h with h
        subst h
        refine ⟨by simp [hv, normAt, hn, hle], by simp, ?_⟩
        intro k hk
        cases k <;> first | rfl | exact absurd rfl hk

theorem checkSubdev_ok {c : Cfg} {s : String} {c1 : Cfg}
    (h : checkSubdev c s = Except.ok c1) :
    c1.subdev = (c.subdev).bind (normAt Key.subdev) ∧
    ((c.subdev).isSome → (c1.subdev).isSome) ∧
    (∀ k, ¬ k = Key.subdev → c1.get k = c.get k) := by
  cases hv : c.subdev with
  | none =>
    simp only [checkSubdev, hv] at h
    injection h with h
    subst h
    exact ⟨by simp [hv], by simp, fun k _ => rfl⟩
  | some v =>
    simp only [checkSubdev, hv] at h
    cases hn : pyIntValue v with
    | none =>
      simp only [hn] at h
      exact Except.noConfusion h
    | some n =>
      simp only [hn] at h
      injection h with h
      subst h
      refine ⟨by simp [hv, normAt, hn], by simp, ?_⟩
      intro k hk
      cases k <;> first | rfl | exact absurd rfl hk

theorem checkChannels_ok {c : Cfg} {s : String} {c1 : Cfg}
    (h : checkChannels c s = Except.ok c1) :
    c1.channels = (c.channels).bind (normAt Key.channels) ∧
    ((c.channels).isSome → (c1.channels).isSome) ∧
    (∀ k, ¬ k = Key.channels → c1.get k = c.get k) := by
  cases hv : c.channels with
  | none =>
    simp only [checkChannels, hv] at h
    injection h with h
    subst h
    exact ⟨by simp [hv], by simp, fun k _ => rfl⟩
  | some v =>
    cases v with
    | intList l =>
      simp only [checkChannels, hv] at h
      split at h
      · exact Except.noConfusion h
      next hneg =>
        injection h with h
        subst h
        refine ⟨?_, by simp, ?_⟩
        · simp only [Option.some_bind, normAt, asIntList]
          rw [if_neg hneg]
        intro k hk
        cases k <;> first | rfl | exact absurd rfl hk
    | str st =>
      simp only [checkChannels, hv] at h
      cases hp : strToIntList st with
      | none =>
        simp only [hp] at h
        exact Except.noConfusion h
      | some l =>
        simp only [hp] at h
        split at h
        · exact Except.noConfusion h
        next hneg =>
          injection h with h
          subst h
          refine ⟨?_, by simp, ?_⟩
          · simp only [Option.some_bind, normAt, asIntList, hp]
            rw [if_neg hneg]
          intro k hk
          cases k <;> first | rfl | exact absurd rfl hk
    | int n =>
      simp only [checkChannels, hv] at h
      exact Except.noConfusion h
    | bool b =>
      simp only [checkChannels, hv] at h
      exact Except.noConfusion h
    | null =>
      simp only [checkChannels, hv] at h
      exact Except.noConfusion h

theorem checkGains_ok {c : Cfg} {s : String} {c1 : Cfg}
    (h : checkGains c s = Except.ok c1) :
    c1.gains = (c.gains).bind (normAt Key.gains) ∧
    ((c.gains).isSome → (c1.gains).isSome) ∧
    (∀ k, ¬ k = Key.gains → c1.get k = c.get k) := by
  cases hv : c.gains with
  | none =>
    simp only [checkGains, hv] at h
    injection h with h
    subst h
    exact ⟨by simp [hv], by simp, fun k _ => rfl⟩
  | some v =>
    cases v with
    | intList l =>
      simp only [checkGains, hv] at h
      split at h
      · exact Except.noConfusion h
      next hrange =>
        injection h with h
        subst h
        refine ⟨?_, by simp, ?_⟩
        · simp only [Option.some_bind, normAt, asIntList]
          rw [if_neg hrange]
        intro k hk
        cases k <;> first | rfl | exact absurd rfl hk
    | str st =>
      simp only [checkGains, hv] at h
      cases hp : strToIntList st with
      | none =>
        simp only [hp] at h
        exact Except.noConfusion h
      | some l =>
        simp only [hp] at h
        split at h
        · exact Except.noConfusion h
        next hrange =>
          injection h with h
          subst h
          refine ⟨?_, by simp, ?_⟩
          · simp only [Option.some_bind, normAt, asIntList, hp]
            rw [if_neg hrange]
          intro k hk
          cases k <;> first | rfl | exact absurd rfl hk
    | int n =>
      simp only [checkGains, hv] at h
      exact Except.noConfusion h
    | bool b =>
      simp only [checkGains, hv] at h
      exact Except.noConfusion h
    | null =>
      simp only [checkGains, hv] at h
      exact Except.noConfusion h

theorem checkAref_ok {c : Cfg} {s : String} {c1 : Cfg}
    (h : checkAref c s = Except.ok c1) :
    c1 = c ∧ (c.aref).bind (normAt Key.aref) = c.aref := by
  cases hv : c.aref with
  | none =>
    simp only [checkAref, hv] at h
    injection h with h
    subst h
    exact ⟨rfl, by simp [hv]⟩
  | some v =>
    simp only [checkAref, hv] at h
    split at h
    next hok =>
      injection h with h
      subst h
      exact ⟨rfl, by simp [hv, normAt, hok]⟩
    next =>
      exact Except.noConfusion h

theorem checkGainsChannels_ok {c : Cfg} {s : String} {c1 : Cfg}
    (h : checkGainsChannels c s = Except.ok c1) :
    (∀ k, ¬ k = Key.gains → c1.get k = c.get k) ∧
    ((c.gains = Option.none ∨ c.channels = Option.none) → c1 = c) ∧
    (∀ gs cs, c.gains = some (Value.intList gs) → c.channels = some (Value.intList cs) →
      (gs.length = cs.length ∨ gs.length = 1) ∧
      ((gs.length = 1 ∧ c1.gains = some (Value.intList (pyListMul gs cs.length))) ∨
       (¬ gs.length = 1 ∧ c1.gains = c.gains))) := by
  cases hg : c.gains with
  | none =>
    simp only [checkGainsChannels, hg] at h
    injection h with h
    subst h
    exact ⟨fun k _ => rfl, fun _ => rfl, fun gs cs hgs _ => by simp [hg] at hgs⟩
  | some vg =>
    cases hc : c.channels with
    | none =>
      cases vg <;>
        · simp only [checkGainsChannels, hg, hc] at h
          injection h with h
          subst h
          exact ⟨fun k _ => rfl, fun _ => rfl, fun gs cs _ hcs => by simp [hc] at hcs⟩
    | some vc =>
      cases vg with
      | intList gs =>
        cases vc with
        | intList cs =>
          simp only [checkGainsChannels, hg, hc] at h
          split at h
          · exact Except.noConfusion h
          next hcond =>
            have hor : gs.length = cs.length ∨ gs.length = 1 := not_not.mp hcond
            split at h
            next h1 =>
              injection h with h
              subst h
              refine ⟨?_, ?_, ?_⟩
              · intro k hk
                cases k <;> first | rfl | exact absurd rfl hk | exact hc.symm
              · intro hn
                rcases hn with h0 | h0 <;> simp_all
              · intro gs2 cs2 hgs2 hcs2
                simp only [Option.some.injEq, Value.intList.injEq] at hgs2 hcs2
                subst hgs2
                subst hcs2
                exact ⟨hor, Or.inl ⟨h1, rfl⟩⟩
            next h1 =>
              injection h with h
              subst h
              refine ⟨fun k _ => rfl, fun _ => rfl, ?_⟩
              intro gs2 cs2 hgs2 hcs2
              simp only [Option.some.injEq, Value.intList.injEq] at hgs2 hcs2
              subst hgs2
              subst hcs2
              exact ⟨hor, Or.inr ⟨h1, hg⟩⟩
        | str a =>
          simp only [checkGainsChannels, hg, hc] at h
          exact Except.noConfusion h
        | int a =>
          simp only [checkGainsChannels, hg, hc] at h
          exact Except.noConfusion h
        | bool a =>
          simp only [checkGainsChannels, hg, hc] at h
          exact Except.noConfusion h
        | null =>
          simp only [checkGainsChannels, hg, hc] at h
          exact Except.noConfusion h
      | str a =>
        cases vc <;>
          · simp only [checkGainsChannels, hg, hc] at h
            exact Except.noConfusion h
      | int a =>
        cases vc <;>
          · simp only [checkGainsChannels, hg, hc] at h
            exact Except.noConfusion h
      | bool a =>
        cases vc <;>
          · simp only [checkGainsChannels, hg, hc] at h
            exact Except.noConfusion h
      | null =>
        cases vc <;>
          · simp only [checkGainsChannels, hg, hc] at h
            exact Except.noConfusion h

@[simp] theorem Cfg.get_device (c : Cfg) : c.get Key.device = c.device := rfl
@[simp] theorem Cfg.get_sample_num (c : Cfg) : c.get Key.sample_num = c.sample_num := rfl
@[simp] theorem Cfg.get_sample_freq (c : Cfg) : c.get Key.sample_freq = c.sample_freq := rfl
@[simp] theorem Cfg.get_channels (c : Cfg) : c.get Key.channels = c.channels := rfl
@[simp] theorem Cfg.get_gains (c : Cfg) : c.get Key.gains = c.gains := rfl
@[simp] theorem Cfg.get_subdev (c : Cfg) : c.get Key.subdev = c.subdev := rfl
@[simp] theorem Cfg.get_output_file (c : Cfg) : c.get Key.output_file = c.output_file := rfl
@[simp] theorem Cfg.get_config_file (c : Cfg) : c.get Key.config_file = c.config_file := rfl
@[simp] theorem Cfg.get_verbose (c : Cfg) : c.get Key.verbose = c.verbose := rfl
@[simp] theorem Cfg.get_plot (c : Cfg) : c.get Key.plot = c.plot := rfl
@[simp] theorem Cfg.get_aref (c : Cfg) : c.get Key.aref = c.aref := rfl

theorem process_config_ok_decomp {c : Cfg} {s : String} {c' : Cfg}
    (h : process_config c s = Except.ok c') :
    ∃ c1 c2 c3 c4 c5 c6,
      checkSampleNum c s = Except.ok c1 ∧ checkSampleFreq c1 s = Except.ok c2 ∧
      checkChannels c2 s = Except.ok c3 ∧ checkGains c3 s = Except.ok c4 ∧
      checkGainsChannels c4 s = Except.ok c5 ∧ checkSubdev c5 s = Except.ok c6 ∧
      checkAref c6 s = Except.ok c' := by
  unfold process_config Except.bind at h
  split at h
  next => exact Except.noConfusion h
  next c1 h1 =>
    try simp only [] at h
    split at h
    next => exact Except.noConfusion h
    next c2 h2 =>
      try simp only [] at h
      split at h
      next => exact Except.noConfusion h
      next c3 h3 =>
        try simp only [] at h
        split at h
        next => exact Except.noConfusion h
        next c4 h4 =>
          try simp only [] at h
          split at h
          next => exact Except.noConfusion h
          next c5 h5 =>
            try simp only [] at h
            split at h
            next => exact Except.noConfusion h
            next c6 h6 =>
              try simp only [] at h
              exact ⟨c1, c2, c3, c4, c5, c6, h1, h2, h3, h4, h5, h6, h⟩

/-- A successful validation transforms every key other than `gains`
pointwise by `normAt`. -/
theorem process_config_get {c : Cfg} {s : String} {c' : Cfg}
    (h : process_config c s = Except.ok c') :
    ∀ k, ¬ k = Key.gains → c'.get k = (c.get k).bind (normAt k) := by
  obtain ⟨c1, c2, c3, c4, c5, c6, h1, h2, h3, h4, h5, h6, h7⟩ := process_config_ok_decomp h
  obtain ⟨e1, _, f1⟩ := checkSampleNum_ok h1
  obtain ⟨e2, _, f2⟩ := checkSampleFreq_ok h2
  obtain ⟨e3, _, f3⟩ := checkChannels_ok h3
  obtain ⟨e4, _, f4⟩ := checkGains_ok h4
  obtain ⟨g5, _, _⟩ := checkGainsChannels_ok h5
  obtain ⟨e6, _, f6⟩ := checkSubdev_ok h6
  obtain ⟨e7, n7⟩ := checkAref_ok h7
  subst e7
  intro k hk
  cases k with
  | device =>
    have t6 := f6 Key.device (by decide)
    have t5 := g5 Key.device (by decide)
    have t4 := f4 Key.device (by decide)
    have t3 := f3 Key.device (by decide)
    have t2 := f2 Key.device (by decide)
    have t1 := f1 Key.device (by decide)
    simp only [Cfg.get_device] at t6 t5 t4 t3 t2 t1 ⊢
    rw [t6, t5, t4, t3, t2, t1]
    cases c.device <;> rfl
  | sample_num =>
    have t6 := f6 Key.sample_num (by decide)
    have t5 := g5 Key.sample_num (by decide)
    have t4 := f4 Key.sample_num (by decide)
    have t3 := f3 Key.sample_num (by decide)
    have t2 := f2 Key.sample_num (by decide)
    simp only [Cfg.get_sample_num] at t6 t5 t4 t3 t2 ⊢
    rw [t6, t5, t4, t3, t2, e1]
  | sample_freq =>
    have t6 := f6 Key.sample_freq (by decide)
    have t5 := g5 Key.sample_freq (by decide)
    have t4 := f4 Key.sample_freq (by decide)
    have t3 := f3 Key.sample_freq (by decide)
    have t1 := f1 Key.sample_freq (by decide)
    simp only [Cfg.get_sample_freq] at t6 t5 t4 t3 t1 ⊢
    rw [t6, t5, t4, t3, e2, t1]
  | channels =>
    have t6 := f6 Key.channels (by decide)
    have t5 := g5 Key.channels (by decide)
    have t4 := f4 Key.channels (by decide)
    have t2 := f2 Key.channels (by decide)
    have t1 := f1 Key.channels (by decide)
    simp only [Cfg.get_channels] at t6 t5 t4 t2 t1 ⊢
    rw [t6, t5, t4, e3, t2, t1]
  | gains => exact absurd rfl hk
  | subdev =>
    have t5 := g5 Key.subdev (by decide)
    have t4 := f4 Key.subdev (by decide)
    have t3 := f3 Key.subdev (by decide)
    have t2 := f2 Key.subdev (by decide)
    have t1 := f1 Key.subdev (by decide)
    simp only [Cfg.get_subdev] at t5 t4 t3 t2 t1 ⊢
    rw [e6, t5, t4, t3, t2, t1]
  | output_file =>
    have t6 := f6 Key.output_file (by decide)
    have t5 := g5 Key.output_file (by decide)
    have t4 := f4 Key.output_file (by decide)
    have t3 := f3 Key.output_file (by decide)
    have t2 := f2 Key.output_file (by decide)
    have t1 := f1 Key.output_file (by decide)
    simp only [Cfg.get_output_file] at t6 t5 t4 t3 t2 t1 ⊢
    rw [t6, t5, t4, t3, t2, t1]
    cases c.output_file <;> rfl
  | config_file =>
    have t6 := f6 Key.config_file (by decide)
    have t5 := g5 Key.config_file (by decide)
    have t4 := f4 Key.config_file (by decide)
    have t3 := f3 Key.config_file (by decide)
    have t2 := f2 Key.config_file (by decide)
    have t1 := f1 Key.config_file (by decide)
    simp only [Cfg.get_config_file] at t6 t5 t4 t3 t2 t1 ⊢
    rw [t6, t5, t4, t3, t2, t1]
    cases c.config_file <;> rfl
  | verbose =>
    have t6 := f6 Key.verbose (by decide)
    have t5 := g5 Key.verbose (by decide)
    have t4 := f4 Key.verbose (by decide)
    have t3 := f3 Key.verbose (by decide)
    have t2 := f2 Key.verbose (by decide)
    have t1 := f1 Key.verbose (by decide)
    simp only [Cfg.get_verbose] at t6 t5 t4 t3 t2 t1 ⊢
    rw [t6, t5, t4, t3, t2, t1]
    cases c.verbose <;> rfl
  | plot =>
    have t6 := f6 Key.plot (by decide)
    have t5 := g5 Key.plot (by decide)
    have t4 := f4 Key.plot (by decide)
    have t3 := f3 Key.plot (by decide)
    have t2 := f2 Key.plot (by decide)
    have t1 := f1 Key.plot (by decide)
    simp only [Cfg.get_plot] at t6 t5 t4 t3 t2 t1 ⊢
    rw [t6, t5, t4, t3, t2, t1]
    cases c.plot <;> rfl
  | aref =>
    have t6 := f6 Key.aref (by decide)
    have t5 := g5 Key.aref (by decide)
    have t4 := f4 Key.aref (by decide)
    have t3 := f3 Key.aref (by decide)
    have t2 := f2 Key.aref (by decide)
    have t1 := f1 Key.aref (by decide)
    simp only [Cfg.get_aref] at t6 t5 t4 t3 t2 t1 ⊢
    have hchain : c'.aref = c.aref := by rw [t6, t5, t4, t3, t2, t1]
    rw [hchain] at n7
    rw [hchain]
    exact n7.symm

theorem normAt_idem {k : Key} {v w : Value} (h : normAt k v = some w) :
    normAt k w = some w := by
  cases k with
  | sample_num =>
    simp only [normAt] at h ⊢
    cases hn : pyIntValue v with
    | none => simp [hn] at h
    | some n =>
      simp only [hn, Option.some_bind] at h
      split at h
      next => exact Option.noConfusion h
      next hle =>
        injection h with h
        subst h
        simp [pyIntValue, hle]
  | sample_freq =>
    simp only [normAt] at h ⊢
    cases hn : pyIntValue v with
    | none => simp [hn] at h
    | some n =>
      simp only [hn, Option.some_bind] at h
      split at h
      next => exact Option.noConfusion h
      next hle =>
        injection h with h
        subst h
        simp [pyIntValue, hle]
  | subdev =>
    simp only [normAt] at h ⊢
    cases hn : pyIntValue v with
    | none => simp [hn] at h
    | some n =>
      simp only [hn] at h
      injection h with h
      subst h
      simp [pyIntValue]
  | channels =>
    simp only [normAt] at h ⊢
    cases ha : asIntList v with
    | none => simp [ha] at h
    | some l =>
      simp only [ha, Option.some_bind] at h
      split at h
      next => exact Option.noConfusion h
      next hneg =>
        injection h with h
        subst h
        simp only [asIntList, Option.some_bind]
        rw [if_neg hneg]
  | gains =>
    simp only [normAt] at h ⊢
    cases ha : asIntList v with
    | none => simp [ha] at h
    | some l =>
      simp only [ha, Option.some_bind] at h
      split at h
      next => exact Option.noConfusion h
      next hrange =>
        injection h with h
        subst h
        simp only [asIntList, Option.some_bind]
        rw [if_neg hrange]
  | aref =>
    simp only [normAt] at h ⊢
    split at h
    next hok =>
      injection h with h
      subst h
      rw [if_pos hok]
    next => exact Option.noConfusion h
  | device =>
    simp only [normAt] at h
    injection h with h
    subst h
    rfl
  | output_file =>
    simp only [normAt] at h
    injection h with h
    subst h
    rfl
  | config_file =>
    simp only [normAt] at h
    injection h with h
    subst h
    rfl
  | verbose =>
    simp only [normAt] at h
    injection h with h
    subst h
    rfl
  | plot =>
    simp only [normAt] at h
    injection h with h
    subst h
    rfl

theorem bind_normAt_idem (k : Key) (o : Option Value) :
    ((o.bind (normAt k)).bind (normAt k)) = o.bind (normAt k) := by
  cases o with
  | none => rfl
  | some v =>
    cases hw : normAt k v with
    | none => simp [hw]
    | some w => simp [hw, normAt_idem hw]

theorem mem_pyListMul {l : List Int} {n : Nat} {x : Int} (h : x ∈ pyListMul l n) : x ∈ l := by
  unfold pyListMul at h
  rw [List.mem_flatten] at h
  obtain ⟨t, ht, hx⟩ := h
  rw [List.mem_replicate] at ht
  exact ht.2 ▸ hx

theorem pyListMul_one (l : List Int) : pyListMul l 1 = l := by
  simp [pyListMul]

theorem pyListMul_singleton (g : Int) (n : Nat) :
    pyListMul [g] n = List.replicate n g := by
  induction n with
  | zero => rfl
  | succ m ih =>
    unfold pyListMul at ih ⊢
    rw [List.replicate_succ, List.replicate_succ, List.flatten_cons, ih]
    rfl

theorem pyListMul_length (l : List Int) (n : Nat) :
    (pyListMul l n).length = n * l.length := by
  induction n with
  | zero => simp [pyListMul]
  | succ m ih =>
    unfold pyListMul at ih ⊢
    rw [List.replicate_succ, List.flatten_cons, List.length_append, ih]
    ring

theorem normAt_gains_pyListMul {gs : List Int} {m : Nat}
    (h : normAt Key.gains (Value.intList gs) = some (Value.intList gs)) :
    normAt Key.gains (Value.intList (pyListMul gs m))
      = some (Value.intList (pyListMul gs m)) := by
  simp only [normAt, asIntList, Option.some_bind] at h ⊢
  split at h
  next => exact Option.noConfusion h
  next hrange =>
    have hnot : ¬ ((pyListMul gs m).any fun x => x < MIN_GAIN ∨ x > MAX_GAIN) = true := by
      intro hx
      rw [List.any_eq_true] at hx
      obtain ⟨x, hxm, hxp⟩ := hx
      exact hrange (List.any_eq_true.mpr ⟨x, mem_pyListMul hxm, hxp⟩)
    rw [if_neg hnot]

theorem normAt_channels_shape {v w : Value} (h : normAt Key.channels v = some w) :
    ∃ cs, w = Value.intList cs := by
  simp only [normAt] at h
  cases ha : asIntList v with
  | none => simp [ha] at h
  | some l =>
    simp only [ha, Option.some_bind] at h
    split at h
    next => exact Option.noConfusion h
    next =>
      injection h with h
      exact ⟨l, h.symm⟩

theorem normAt_gains_shape {v w : Value} (h : normAt Key.gains v = some w) :
    ∃ gs, w = Value.intList gs := by
  simp only [normAt] at h
  cases ha : asIntList v with
  | none => simp [ha] at h
  | some l =>
    simp only [ha, Option.some_bind] at h
    split at h
    next => exact Option.noConfusion h
    next =>
      injection h with h
      exact ⟨l, h.symm⟩

/-- A successful validation of a dict containing `gains` normalizes the
raw value and then either keeps it or broadcasts it (a list repetition by
some count). -/
theorem process_config_gains {c : Cfg} {s : String} {c' : Cfg}
    (h : process_config c s = Except.ok c') :
    (c.gains = Option.none → c'.gains = Option.none) ∧
    (∀ v, c.gains = some v → ∃ gs, normAt Key.gains v = some (Value.intList gs) ∧
      (c'.gains = some (Value.intList gs) ∨
       (gs.length = 1 ∧ ∃ m, c'.gains = some (Value.intList (pyListMul gs m))))) := by
  obtain ⟨c1, c2, c3, c4, c5, c6, h1, h2, h3, h4, h5, h6, h7⟩ := process_config_ok_decomp h
  obtain ⟨e1, _, f1⟩ := checkSampleNum_ok h1
  obtain ⟨e2, _, f2⟩ := checkSampleFreq_ok h2
  obtain ⟨e3, i3, f3⟩ := checkChannels_ok h3
  obtain ⟨e4, i4, f4⟩ := checkGains_ok h4
  obtain ⟨g5, n5, x5⟩ := checkGainsChannels_ok h5
  obtain ⟨e6, _, f6⟩ := checkSubdev_ok h6
  obtain ⟨e7, _⟩ := checkAref_ok h7
  subst e7
  have hg3 : c3.gains = c.gains := by
    have t3 := f3 Key.gains (by decide)
    have t2 := f2 Key.gains (by decide)
    have t1 := f1 Key.gains (by decide)
    simp only [Cfg.get_gains] at t1 t2 t3
    rw [t3, t2, t1]
  have hg4 : c4.gains = (c.gains).bind (normAt Key.gains) := by rw [e4, hg3]
  have hg6 : c'.gains = c5.gains := by
    have t6 := f6 Key.gains (by decide)
    simp only [Cfg.get_gains] at t6
    exact t6
  constructor
  · intro hnone
    have h0 : c4.gains = Option.none := by rw [hg4, hnone]; rfl
    have hc5 : c5 = c4 := n5 (Or.inl h0)
    rw [hg6, hc5, h0]
  · intro v hv
    have hsome4 : (c4.gains).isSome := by
      apply i4
      rw [hg3, hv]
      rfl
    have hg4v : c4.gains = normAt Key.gains v := by rw [hg4, hv]; rfl
    cases hw : normAt Key.gains v with
    | none => rw [hg4v, hw] at hsome4; exact absurd hsome4 (by simp)
    | some w =>
      obtain ⟨gs, rfl⟩ := normAt_gains_shape hw
      refine ⟨gs, rfl, ?_⟩
      cases hch : c4.channels with
      | none =>
        have hc5 : c5 = c4 := n5 (Or.inr hch)
        left
        rw [hg6, hc5, hg4v, hw]
      | some vch =>
        have hch4 : c4.channels = (c.channels).bind (normAt Key.channels) := by
          have t4 := f4 Key.channels (by decide)
          have t2 := f2 Key.channels (by decide)
          have t1 := f1 Key.channels (by decide)
          simp only [Cfg.get_channels] at t4 t2 t1
          rw [t4, e3, t2, t1]
        have hvs : ∃ cs, vch = Value.intList cs := by
          rw [hch] at hch4
          cases hcc : c.channels with
          | none => rw [hcc] at hch4; exact absurd hch4 (by simp)
          | some u =>
            rw [hcc] at hch4
            exact normAt_channels_shape (by simpa using hch4.symm)
        obtain ⟨cs, rfl⟩ := hvs
        obtain ⟨hlen, hcase⟩ := x5 gs cs (by rw [hg4v, hw]) hch
        cases hcase with
        | inl hone =>
          right
          exact ⟨hone.1, cs.length, by rw [hg6, hone.2]⟩
        | inr hne =>
          left
          rw [hg6, hne.2, hg4v, hw]

/-- On success, every present non-`gains` value normalizes. -/
theorem process_config_norm_ok {c : Cfg} {s : String} {c' : Cfg}
    (h : process_config c s = Except.ok c') :
    ∀ k v, ¬ k = Key.gains → c.get k = some v → (normAt k v).isSome := by
  obtain ⟨c1, c2, c3, c4, c5, c6, h1, h2, h3, h4, h5, h6, h7⟩ := process_config_ok_decomp h
  obtain ⟨e1, i1, f1⟩ := checkSampleNum_ok h1
  obtain ⟨e2, i2, f2⟩ := checkSampleFreq_ok h2
  obtain ⟨e3, i3, f3⟩ := checkChannels_ok h3
  obtain ⟨e4, _, f4⟩ := checkGains_ok h4
  obtain ⟨g5, _, _⟩ := checkGainsChannels_ok h5
  obtain ⟨e6, i6, f6⟩ := checkSubdev_ok h6
  obtain ⟨e7, n7⟩ := checkAref_ok h7
  subst e7
  intro k v hk hv
  cases k with
  | device => simp [normAt]
  | output_file => simp [normAt]
  | config_file => simp [normAt]
  | verbose => simp [normAt]
  | plot => simp [normAt]
  | gains => exact absurd rfl hk
  | sample_num =>
    simp only [Cfg.get_sample_num] at hv
    have hs := i1 (by rw [hv]; rfl)
    rw [e1, hv] at hs
    simpa using hs
  | sample_freq =>
    simp only [Cfg.get_sample_freq] at hv
    have t1 := f1 Key.sample_freq (by decide)
    simp only [Cfg.get_sample_freq] at t1
    have hc1 : c1.sample_freq = some v := by rw [t1, hv]
    have hs := i2 (by rw [hc1]; rfl)
    rw [e2, hc1] at hs
    simpa using hs
  | channels =>
    simp only [Cfg.get_channels] at hv
    have t1 := f1 Key.channels (by decide)
    have t2 := f2 Key.channels (by decide)
    simp only [Cfg.get_channels] at t1 t2
    have hc2 : c2.channels = some v := by rw [t2, t1, hv]
    have hs := i3 (by rw [hc2]; rfl)
    rw [e3, hc2] at hs
    simpa using hs
  | subdev =>
    simp only [Cfg.get_subdev] at hv
    have t1 := f1 Key.subdev (by decide)
    have t2 := f2 Key.subdev (by decide)
    have t3 := f3 Key.subdev (by decide)
    have t4 := f4 Key.subdev (by decide)
    have t5 := g5 Key.subdev (by decide)
    simp only [Cfg.get_subdev] at t1 t2 t3 t4 t5
    have hc5 : c5.subdev = some v := by rw [t5, t4, t3, t2, t1, hv]
    have hs := i6 (by rw [hc5]; rfl)
    rw [e6, hc5] at hs
    simpa using hs
  | aref =>
    simp only [Cfg.get_aref] at hv
    have t1 := f1 Key.aref (by decide)
    have t2 := f2 Key.aref (by decide)
    have t3 := f3 Key.aref (by decide)
    have t4 := f4 Key.aref (by decide)
    have t5 := g5 Key.aref (by decide)
    have t6 := f6 Key.aref (by decide)
    simp only [Cfg.get_aref] at t1 t2 t3 t4 t5 t6
    have hc' : c'.aref = some v := by rw [t6, t5, t4, t3, t2, t1, hv]
    rw [hc'] at n7
    simp only [Option.some_bind] at n7
    rw [n7]
    rfl

/-- A successful validation preserves exactly which keys are present. -/
theorem process_config_isSome {c : Cfg} {s : String} {c' : Cfg}
    (h : process_config c s = Except.ok c') :
    ∀ k, (c'.get k).isSome = (c.get k).isSome := by
  intro k
  by_cases hk : k = Key.gains
  · subst hk
    obtain ⟨hn, hs⟩ := process_config_gains h
    simp only [Cfg.get_gains]
    cases hv : c.gains with
    | none => rw [hn hv]
    | some v =>
      obtain ⟨gs, _, hcase⟩ := hs v hv
      rcases hcase with h0 | ⟨_, m, h0⟩ <;> simp [h0]
  · rw [process_config_get h k hk]
    cases hv : c.get k with
    | none => rfl
    | some v =>
      have := process_config_norm_ok h k v hk hv
      simpa using this

theorem exceptOkBind {ε α β : Type} (a : α) (f : α → Except ε β) :
    (Except.ok a).bind f = f a := rfl

theorem exceptErrorBind {ε α β : Type} (e : ε) (f : α → Except ε β) :
    (Except.error e : Except ε α).bind f = Except.error e := rfl

/-- On success with both lists present and already converted, the
length cross-check held and the result records the broadcast decision. -/
theorem process_config_typed_cross {c : Cfg} {s : String} {c' : Cfg} {gs cs : List Int}
    (hg : c.gains = some (Value.intList gs)) (hc : c.channels = some (Value.intList cs))
    (h : process_config c s = Except.ok c') :
    (gs.length = cs.length ∨ gs.length = 1) ∧
    ((gs.length = 1 ∧ c'.gains = some (Value.intList (pyListMul gs cs.length))) ∨
     (¬ gs.length = 1 ∧ c'.gains = some (Value.intList gs))) := by
  obtain ⟨c1, c2, c3, c4, c5, c6, h1, h2, h3, h4, h5, h6, h7⟩ := process_config_ok_decomp h
  obtain ⟨e1, i1, f1⟩ := checkSampleNum_ok h1
  obtain ⟨e2, i2, f2⟩ := checkSampleFreq_ok h2
  obtain ⟨e3, i3, f3⟩ := checkChannels_ok h3
  obtain ⟨e4, i4, f4⟩ := checkGains_ok h4
  obtain ⟨g5, n5, x5⟩ := checkGainsChannels_ok h5
  obtain ⟨e6, i6, f6⟩ := checkSubdev_ok h6
  obtain ⟨e7, n7⟩ := checkAref_ok h7
  subst e7
  have hg3 : c3.gains = c.gains := by
    have t3 := f3 Key.gains (by decide)
    have t2 := f2 Key.gains (by decide)
    have t1 := f1 Key.gains (by decide)
    simp only [Cfg.get_gains] at t1 t2 t3
    rw [t3, t2, t1]
  have hg4some : (c4.gains).isSome := by
    apply i4
    rw [hg3, hg]
    rfl
  have hg4 : c4.gains = some (Value.intList gs) := by
    rw [e4, hg3, hg] at hg4some ⊢
    simp only [Option.some_bind, normAt, asIntList] at hg4some ⊢
    split at hg4some
    · exact absurd hg4some (by simp)
    next hrange =>
      rw [if_neg hrange]
  have hc2 : c2.channels = c.channels := by
    have t2 := f2 Key.channels (by decide)
    have t1 := f1 Key.channels (by decide)
    simp only [Cfg.get_channels] at t1 t2
    rw [t2, t1]
  have hc3some : (c3.channels).isSome := by
    apply i3
    rw [hc2, hc]
    rfl
  have hc4 : c4.channels = some (Value.intList cs) := by
    have t4 := f4 Key.channels (by decide)
    simp only [Cfg.get_channels] at t4
    rw [t4]
    rw [e3, hc2, hc] at hc3some ⊢
    simp only [Option.some_bind, normAt, asIntList] at hc3some ⊢
    split at hc3some
    · exact absurd hc3some (by simp)
    next hneg =>
      rw [if_neg hneg]
  obtain ⟨hlen, hcase⟩ := x5 gs cs hg4 hc4
  have hg6 : c'.gains = c5.gains := by
    have t6 := f6 Key.gains (by decide)
    simp only [Cfg.get_gains] at t6
    exact t6
  refine ⟨hlen, ?_⟩
  cases hcase with
  | inl hone => exact Or.inl ⟨hone.1, by rw [hg6, hone.2]⟩
  | inr hne => exact Or.inr ⟨hne.1, by rw [hg6, hne.2, hg4]⟩

theorem checkSampleNum_typed {c : Cfg} {s : String}
    (hyp : c.sample_num = Option.none ∨ ∃ n, c.sample_num = some (Value.int n) ∧ 0 < n) :
    checkSampleNum c s = Except.ok c := by
  rcases hyp with h0 | ⟨n, h0, hpos⟩
  · simp [checkSampleNum, h0]
  · simp only [checkSampleNum, h0, pyIntValue]
    rw [if_neg (by omega)]
    have he : { c with sample_num := some (Value.int n) } = c := by
      cases c
      simp_all
    rw [he]

theorem checkSampleFreq_typed {c : Cfg} {s : String}
    (hyp : c.sample_freq = Option.none ∨ ∃ n, c.sample_freq = some (Value.int n) ∧ 0 < n) :
    checkSampleFreq c s = Except.ok c := by
  rcases hyp with h0 | ⟨n, h0, hpos⟩
  · simp [checkSampleFreq, h0]
  · simp only [checkSampleFreq, h0, pyIntValue]
    rw [if_neg (by omega)]
    have he : { c with sample_freq := some (Value.int n) } = c := by
      cases c
      simp_all
    rw [he]

theorem checkSubdev_typed {c : Cfg} {s : String}
    (hyp : c.subdev = Option.none ∨ ∃ n, c.subdev = some (Value.int n)) :
    checkSubdev c s = Except.ok c := by
  rcases hyp with h0 | ⟨n, h0⟩
  · simp [checkSubdev, h0]
  · simp only [checkSubdev, h0, pyIntValue]
    have he : { c with subdev := some (Value.int n) } = c := by
      cases c
      simp_all
    rw [he]

theorem checkChannels_typed {c : Cfg} {s : String}
    (hyp : c.channels = Option.none ∨
      ∃ l, c.channels = some (Value.intList l) ∧ (l.any fun x => x < 0) = false) :
    checkChannels c s = Except.ok c := by
  rcases hyp with h0 | ⟨l, h0, hneg⟩
  · simp [checkChannels, h0]
  · simp only [checkChannels, h0]
    rw [if_neg (by simp [hneg])]
    have he : { c with channels := some (Value.intList l) } = c := by
      cases c
      simp_all
    rw [he]

theorem checkGains_typed {c : Cfg} {s : String}
    (hyp : c.gains = Option.none ∨
      ∃ l, c.gains = some (Value.intList l) ∧
        (l.any fun x => x < MIN_GAIN ∨ x > MAX_GAIN) = false) :
    checkGains c s = Except.ok c := by
  rcases hyp with h0 | ⟨l, h0, hrange⟩
  · simp [checkGains, h0]
  · simp only [checkGains, h0]
    rw [if_neg (by rw [hrange]; simp)]
    have he : { c with gains := some (Value.intList l) } = c := by
      cases c
      simp_all
    rw [he]

theorem checkAref_typed {c : Cfg} {s : String}
    (hyp : c.aref = Option.none ∨ ∃ v, c.aref = some v ∧ arefOk v = true) :
    checkAref c s = Except.ok c := by
  rcases hyp with h0 | ⟨v, h0, hok⟩
  · simp [checkAref, h0]
  · simp only [checkAref, h0]
    rw [if_pos hok]

theorem checkGainsChannels_skip {c : Cfg} {s : String}
    (h : c.gains = Option.none ∨ c.channels = Option.none) :
    checkGainsChannels c s = Except.ok c := by
  rcases h with h0 | h0
  · simp [checkGainsChannels, h0]
  · cases hg : c.gains with
    | none => simp [checkGainsChannels, hg]
    | some vg => cases vg <;> simp [checkGainsChannels, hg, h0]

theorem checkGainsChannels_mismatch {c : Cfg} {s : String} {gs cs : List Int}
    (hg : c.gains = some (Value.intList gs)) (hc : c.channels = some (Value.intList cs))
    (hm : ¬ (gs.length = cs.length ∨ gs.length = 1)) :
    checkGainsChannels c s = Except.error (gainsMismatchErr cs gs s) := by
  simp only [checkGainsChannels, hg, hc]
  rw [if_pos hm]

theorem checkGainsChannels_typed_ok {c : Cfg} {s : String} {gs cs : List Int}
    (hg : c.gains = some (Value.intList gs)) (hc : c.channels = some (Value.intList cs))
    (hok : gs.length = cs.length ∨ gs.length = 1) :
    ∃ c5, checkGainsChannels c s = Except.ok c5 ∧
      (∀ k, ¬ k = Key.gains → c5.get k = c.get k) := by
  simp only [checkGainsChannels, hg, hc]
  rw [if_neg (not_not_intro hok)]
  by_cases h1 : gs.length = 1
  · rw [if_pos h1]
    refine ⟨_, rfl, ?_⟩
    intro k hk
    cases k <;> first | rfl | exact absurd rfl hk | exact hc.symm
  · rw [if_neg h1]
    exact ⟨c, rfl, fun k _ => rfl⟩

theorem checkSampleNum_error_code {c : Cfg} {s : String} {e : ExitErr}
    (h : checkSampleNum c s = Except.error e) : e.code = 1 := by
  unfold checkSampleNum at h
  split at h
  · exact Except.noConfusion h
  next v =>
    split at h
    · injection h with h
      subst h
      rfl
    next n =>
      split at h
      · injection h with h
        subst h
        rfl
      · exact Except.noConfusion h

theorem checkSampleFreq_error_code {c : Cfg} {s : String} {e : ExitErr}
    (h : checkSampleFreq c s = Except.error e) : e.code = 1 := by
  unfold checkSampleFreq at h
  split at h
  · exact Except.noConfusion h
  next v =>
    split at h
    · injection h with h
      subst h
      rfl
    next n =>
      split at h
      · injection h with h
        subst h
        rfl
      · exact Except.noConfusion h

theorem checkChannels_error_code {c : Cfg} {s : String} {e : ExitErr}
    (h : checkChannels c s = Except.error e) : e.code = 1 := by
  cases hv : c.channels with
  | none =>
    simp only [checkChannels, hv] at h
    exact Except.noConfusion h
  | some v =>
    cases v with
    | intList l =>
      simp only [checkChannels, hv] at h
      split at h
      · injection h with h
        subst h
        rfl
      · exact Except.noConfusion h
    | str st =>
      simp only [checkChannels, hv] at h
      cases hp : strToIntList st with
      | none =>
        simp only [hp] at h
        injection h with h
        subst h
        rfl
      | some l =>
        simp only [hp] at h
        split at h
        · injection h with h
          subst h
          rfl
        · exact Except.noConfusion h
    | int n =>
      simp only [checkChannels, hv] at h
      injection h with h
      subst h
      rfl
    | bool b =>
      simp only [checkChannels, hv] at h
      injection h with h
      subst h
      rfl
    | null =>
      simp only [checkChannels, hv] at h
      injection h with h
      subst h
      rfl

theorem checkGains_error_code {c : Cfg} {s : String} {e : ExitErr}
    (h : checkGains c s = Except.error e) : e.code = 1 := by
  cases hv : c.gains with
  | none =>
    simp only [checkGains, hv] at h
    exact Except.noConfusion h
  | some v =>
    cases v with
    | intList l =>
      simp only [checkGains, hv] at h
      split at h
      · injection h with h
        subst h
        rfl
      · exact Except.noConfusion h
    | str st =>
      simp only [checkGains, hv] at h
      cases hp : strToIntList st with
      | none =>
        simp only [hp] at h
        injection h with h
        subst h
        rfl
      | some l =>
        simp only [hp] at h
        split at h
        · injection h with h
          subst h
          rfl
        · exact Except.noConfusion h
    | int n =>
      simp only [checkGains, hv] at h
      injection h with h
      subst h
      rfl
    | bool b =>
      simp only [checkGains, hv] at h
      injection h with h
      subst h
      rfl
    | null =>
      simp only [checkGains, hv] at h
      injection h with h
      subst h
      rfl

theorem checkGainsChannels_error_code {c : Cfg} {s : String} {e : ExitErr}
    (h : checkGainsChannels c s = Except.error e) : e.code = 1 := by
  unfold checkGainsChannels at h
  split at h
  · split at h
    · injection h with h
      subst h
      rfl
    · split at h
      · exact Except.noConfusion h
      · exact Except.noConfusion h
  · injection h with h
    subst h
    rfl
  · injection h with h
    subst h
    rfl
  · injection h with h
    subst h
    rfl
  · exact Except.noConfusion h

theorem checkSubdev_error_code {c : Cfg} {s : String} {e : ExitErr}
    (h : checkSubdev c s = Except.error e) : e.code = 1 := by
  unfold checkSubdev at h
  split at h
  · exact Except.noConfusion h
  next v =>
    split at h
    · injection h with h
      subst h
      rfl
    · exact Except.noConfusion h

theorem checkAref_error_code {c : Cfg} {s : String} {e : ExitErr}
    (h : checkAref c s = Except.error e) : e.code = 1 := by
  unfold checkAref at h
  split at h
  · exact Except.noConfusion h
  · split at h
    · exact Except.noConfusion h
    · injection h with h
      subst h
      rfl

/-- Every failure path of the validation gate reports exit status 1. -/
theorem process_config_error_code {c : Cfg} {s : String} {e : ExitErr}
    (h : process_config c s = Except.error e) : e.code = 1 := by
  unfold process_config Except.bind at h
  split at h
  next heq =>
    injection h with h
    subst h
    exact checkSampleNum_error_code heq
  next c1 h1 =>
    try simp only [] at h
    split at h
    next heq =>
      injection h with h
      subst h
      exact checkSampleFreq_error_code heq
    next c2 h2 =>
      try simp only [] at h
      split at h
      next heq =>
        injection h with h
        subst h
        exact checkChannels_error_code heq
      next c3 h3 =>
        try simp only [] at h
        split at h
        next heq =>
          injection h with h
          subst h
          exact checkGains_error_code heq
        next c4 h4 =>
          try simp only [] at h
          split at h
          next heq =>
            injection h with h
            subst h
            exact checkGainsChannels_error_code heq
          next c5 h5 =>
            try simp only [] at h
            split at h
            next heq =>
              injection h with h
              subst h
              exact checkSubdev_error_code heq
            next c6 h6 =>
              try simp only [] at h
              exact checkAref_error_code h

-- ---------------------------------------------------------------------
-- Claim theorems
-- ---------------------------------------------------------------------

/-- C3: when both `gains` and `channels` are present (as converted lists),
`gains` is a singleton `[g]` and `channels` has length `k > 1`, a
successful `process_config` run replaces `gains` by a length-`k` list all
of whose entries are `g`; and when `len(gains)` is neither `1` nor
`len(channels)`, `process_config` never succeeds: it takes the
hard-stop failure path (standard-error message and exit status 1,
modelled by `Except.error` with code 1). -/
theorem c3_gains_broadcast :
    (∀ (c : Cfg) (s : String) (c' : Cfg) (g : Int) (cs : List Int),
      c.gains = some (Value.intList [g]) → c.channels = some (Value.intList cs) →
      1 < cs.length → process_config c s = Except.ok c' →
      c'.gains = some (Value.intList (List.replicate cs.length g))) ∧
    (∀ (c : Cfg) (s : String) (gs cs : List Int),
      c.gains = some (Value.intList gs) → c.channels = some (Value.intList cs) →
      ¬ (gs.length = 1 ∨ gs.length = cs.length) →
      ∃ e, process_config c s = Except.error e ∧ e.code = 1) := by
  constructor
  · intro c s c' g cs hg hc _ h
    obtain ⟨_, hcase⟩ := process_config_typed_cross hg hc h
    rcases hcase with ⟨_, hb⟩ | ⟨hn1, _⟩
    · rw [hb, pyListMul_singleton]
    · exact absurd rfl hn1
  · intro c s gs cs hg hc hm
    cases hres : process_config c s with
    | error e => exact ⟨e, rfl, process_config_error_code hres⟩
    | ok c' =>
      obtain ⟨hlen, _⟩ := process_config_typed_cross hg hc hres
      rcases hlen with h0 | h0
      · exact absurd (Or.inr h0) hm
      · exact absurd (Or.inl h0) hm

theorem c3_gains_broadcast_witness :
    (∃ c', process_config
        { channels := some (Value.intList [0, 1]), gains := some (Value.intList [2]) } "cli"
        = Except.ok c' ∧ c'.gains = some (Value.intList (List.replicate 2 2))) ∧
    (∃ e, process_config
        { channels := some (Value.intList [0, 1]), gains := some (Value.intList [1, 2, 3]) } "cli"
        = Except.error e ∧ e.code = 1) := by
  constructor
  · refine ⟨{ channels := some (Value.intList [0, 1]),
              gains := some (Value.intList [2, 2]) }, by decide, ?_⟩
    exact c3_gains_broadcast.1
      { channels := some (Value.intList [0, 1]), gains := some (Value.intList [2]) } "cli"
      { channels := some (Value.intList [0, 1]), gains := some (Value.intList [2, 2]) }
      2 [0, 1] rfl rfl (by decide) (by decide)
  · exact c3_gains_broadcast.2
      { channels := some (Value.intList [0, 1]), gains := some (Value.intList [1, 2, 3]) } "cli"
      [1, 2, 3] [0, 1] rfl rfl (by decide)

/-- C4: with every other checked key absent or well-formed, a
configuration carrying converted `channels` and `gains` lists whose
lengths violate the rule (`len(gains)` neither `1` nor `len(channels)`)
makes `process_config` fail with exactly the cross-check error: the
message (built by `gainsMismatchErr`) lists both the channels list and
the gains list, and the exit status is 1.  In the model the function
returns `Except.error` — the Python original writes the message to
`sys.stderr` and calls `sys.exit(1)` instead of returning at all. -/
theorem c4_mismatch_hard_stop :
    ∀ (c : Cfg) (s : String) (gs cs : List Int),
    (c.sample_num = Option.none ∨ ∃ n, c.sample_num = some (Value.int n) ∧ 0 < n) →
    (c.sample_freq = Option.none ∨ ∃ n, c.sample_freq = some (Value.int n) ∧ 0 < n) →
    c.channels = some (Value.intList cs) → ((cs.any fun x => x < 0) = false) →
    c.gains = some (Value.intList gs) →
    ((gs.any fun x => x < MIN_GAIN ∨ x > MAX_GAIN) = false) →
    ¬ (gs.length = cs.length ∨ gs.length = 1) →
    process_config c s = Except.error (gainsMismatchErr cs gs s) := by
  intro c s gs cs h1 h2 hc hcneg hg hgr hm
  unfold process_config
  rw [checkSampleNum_typed h1, exceptOkBind, checkSampleFreq_typed h2, exceptOkBind,
      checkChannels_typed (Or.inr ⟨cs, hc, hcneg⟩), exceptOkBind,
      checkGains_typed (Or.inr ⟨gs, hg, hgr⟩), exceptOkBind,
      checkGainsChannels_mismatch hg hc hm, exceptErrorBind]

theorem c4_mismatch_hard_stop_witness :
    process_config
      { sample_num := some (Value.int 5), channels := some (Value.intList [0, 1]),
        gains := some (Value.intList [1, 2, 3]) } "combined config"
      = Except.error (gainsMismatchErr [0, 1] [1, 2, 3] "combined config") :=
  c4_mismatch_hard_stop
    { sample_num := some (Value.int 5), channels := some (Value.intList [0, 1]),
      gains := some (Value.intList [1, 2, 3]) } "combined config" [1, 2, 3] [0, 1]
    (Or.inr ⟨5, rfl, by decide⟩) (Or.inl rfl) rfl (by decide) rfl (by decide) (by decide)

/-- The well-formedness of every key other than `aref`, as needed to
isolate the `aref` check of `process_config`. -/
def otherKeysOk (c : Cfg) : Prop :=
  (c.sample_num = Option.none ∨ ∃ n, c.sample_num = some (Value.int n) ∧ 0 < n) ∧
  (c.sample_freq = Option.none ∨ ∃ n, c.sample_freq = some (Value.int n) ∧ 0 < n) ∧
  (c.subdev = Option.none ∨ ∃ n, c.subdev = some (Value.int n)) ∧
  (c.channels = Option.none ∨
    ∃ l, c.channels = some (Value.intList l) ∧ (l.any fun x => x < 0) = false) ∧
  (c.gains = Option.none ∨
    ∃ l, c.gains = some (Value.intList l) ∧
      (l.any fun x => x < MIN_GAIN ∨ x > MAX_GAIN) = false) ∧
  (c.gains = Option.none ∨ c.channels = Option.none ∨
    ∃ gs cs, c.gains = some (Value.intList gs) ∧ c.channels = some (Value.intList cs) ∧
      (gs.length = cs.length ∨ gs.length = 1))

/-- C7: for a configuration whose other keys are well-formed and whose
`aref` key is present with value `v`, `process_config` hard-stops with
status 1 exactly when `v` is not one of the strings `diff`, `ground`,
`common` (`arefOk`, an exact case-sensitive membership test — no
lowercasing is applied, so e.g. `GROUND` is rejected). -/
theorem c7_aref_case_sensitive :
    ∀ (c : Cfg) (s : String) (v : Value), otherKeysOk c → c.aref = some v →
      ((∃ e, process_config c s = Except.error e ∧ e.code = 1) ↔ arefOk v = false) := by
  intro c s v hok haref
  obtain ⟨h1, h2, h3, h4, h5, h6⟩ := hok
  have hpipe : ∃ c5, process_config c s = checkAref c5 s ∧ c5.aref = c.aref := by
    rcases h6 with hgn | hcn | ⟨gs, cs, hg, hc, hlen⟩
    · refine ⟨c, ?_, rfl⟩
      unfold process_config
      rw [checkSampleNum_typed h1, exceptOkBind, checkSampleFreq_typed h2, exceptOkBind,
          checkChannels_typed h4, exceptOkBind, checkGains_typed h5, exceptOkBind,
          checkGainsChannels_skip (Or.inl hgn), exceptOkBind, checkSubdev_typed h3,
          exceptOkBind]
    · refine ⟨c, ?_, rfl⟩
      unfold process_config
      rw [checkSampleNum_typed h1, exceptOkBind, checkSampleFreq_typed h2, exceptOkBind,
          checkChannels_typed h4, exceptOkBind, checkGains_typed h5, exceptOkBind,
          checkGainsChannels_skip (Or.inr hcn), exceptOkBind, checkSubdev_typed h3,
          exceptOkBind]
    · obtain ⟨c5, hc5, hpres⟩ := checkGainsChannels_typed_ok hg hc hlen
      have hsub5 : c5.subdev = c.subdev := by simpa using hpres Key.subdev (by decide)
      refine ⟨c5, ?_, by simpa using hpres Key.aref (by decide)⟩
      unfold process_config
      rw [checkSampleNum_typed h1, exceptOkBind, checkSampleFreq_typed h2, exceptOkBind,
          checkChannels_typed h4, exceptOkBind, checkGains_typed h5, exceptOkBind,
          hc5, exceptOkBind, checkSubdev_typed (by rw [hsub5]; exact h3), exceptOkBind]
  obtain ⟨c5, heq, haref5⟩ := hpipe
  rw [heq]
  by_cases hv : arefOk v = true
  · have hok5 : checkAref c5 s = Except.ok c5 :=
      checkAref_typed (Or.inr ⟨v, by rw [haref5, haref], hv⟩)
    rw [hok5]
    constructor
    · rintro ⟨e, he, _⟩
      exact absurd he (by simp)
    · intro hfalse
      rw [hv] at hfalse
      exact Bool.noConfusion hfalse
  · have hfalse : arefOk v = false := by
      revert hv
      cases arefOk v <;> simp
    have herr : checkAref c5 s = Except.error
        ⟨PROG_NAME ++ ": error: " ++ s ++ ": invalid reference mode \x27" ++ pyStr v ++ "\x27",
         1⟩ := by
      simp only [checkAref, haref5, haref]
      rw [if_neg hv]
    rw [herr]
    exact ⟨fun _ => hfalse, fun _ => ⟨_, rfl, rfl⟩⟩

theorem c7_aref_case_sensitive_witness :
    (∃ e, process_config
        { channels := some (Value.intList [0]), gains := some (Value.intList [1]),
          aref := some (Value.str "GROUND") } "x"
        = Except.error e ∧ e.code = 1) ∧
    arefOk (Value.str "GROUND") = false := by
  refine ⟨?_, by decide⟩
  refine (c7_aref_case_sensitive
    { channels := some (Value.intList [0]), gains := some (Value.intList [1]),
      aref := some (Value.str "GROUND") } "x" (Value.str "GROUND") ?_ rfl).mpr (by decide)
  exact ⟨Or.inl rfl, Or.inl rfl, Or.inl rfl,
    Or.inr ⟨[0], rfl, by decide⟩, Or.inr ⟨[1], rfl, by decide⟩,
    Or.inr (Or.inr ⟨[1], [0], rfl, rfl, Or.inl rfl⟩)⟩

theorem lookup_cons_pair (a b : String) (t : List (String × String)) (k2 : String) :
    List.lookup k2 ((a, b) :: t) = if k2 = a then some b else List.lookup k2 t := by
  by_cases h : k2 = a
  · simp [List.lookup, h]
  · simp [List.lookup, h, beq_eq_false_iff_ne.mpr h]

theorem dictSet_lookup (d : List (String × String)) (k v k2 : String) :
    (dictSet d k v).lookup k2 = if k2 = k then some v else d.lookup k2 := by
  unfold dictSet
  induction d with
  | nil =>
    simp only [List.filter_nil, List.nil_append, lookup_cons_pair]
  | cons p t ih =>
    obtain ⟨a, b⟩ := p
    rw [List.filter_cons]
    split
    next hcond =>
      have hak : ¬ a = k := by simpa using hcond
      by_cases h2 : k2 = a
      · subst h2
        rw [List.cons_append, lookup_cons_pair, lookup_cons_pair]
        simp [hak]
      · rw [List.cons_append, lookup_cons_pair, if_neg h2, ih, lookup_cons_pair]
        by_cases h3 : k2 = k <;> simp [h2, h3]
    next hcond =>
      have hak : a = k := by simpa using hcond
      subst hak
      rw [ih, lookup_cons_pair]
      by_cases h2 : k2 = a <;> simp [h2]

theorem parse_config_line_mono {acc acc2 : List (String × String)} {l : String}
    (h : parse_config_line acc l = Except.ok acc2) :
    ∀ k, ((acc.lookup k).isSome : Prop) → (acc2.lookup k).isSome := by
  intro k hk
  unfold parse_config_line at h
  split at h
  · injection h with h
    subst h
    exact hk
  next t rest =>
    split at h
    · injection h with h
      subst h
      exact hk
    · split at h
      · exact Except.noConfusion h
      next r rs =>
        injection h with h
        subst h
        rw [dictSet_lookup]
        split
        · rfl
        · exact hk

theorem parse_aux_ok {lines : List String} :
    ∀ {acc m : List (String × String)},
    lines.foldlM parse_config_line acc = Except.ok m →
    (∀ k, ((acc.lookup k).isSome : Prop) → (m.lookup k).isSome) ∧
    (∀ l ∈ lines, ∀ t rest, pySplit l = t :: rest → ¬ t = "#" →
      (∃ r rs, rest = r :: rs) ∧ (m.lookup (pyLower t)).isSome) := by
  induction lines with
  | nil =>
    intro acc m h
    simp only [List.foldlM_nil] at h
    injection h with h
    subst h
    exact ⟨fun k hk => hk, fun l hl => absurd hl (List.not_mem_nil l)⟩
  | cons l ls ih =>
    intro acc m h
    rw [List.foldlM_cons] at h
    cases hstep : parse_config_line acc l with
    | error e =>
      rw [hstep] at h
      exact Except.noConfusion h
    | ok acc2 =>
      rw [hstep] at h
      obtain ⟨mono2, rest2⟩ := ih h
      refine ⟨fun k hk => mono2 k (parse_config_line_mono hstep k hk), ?_⟩
      intro l2 hl2 t rest htoks hsharp
      rcases List.mem_cons.mp hl2 with rfl | hl2
      · simp only [parse_config_line, htoks] at hstep
        rw [if_neg hsharp] at hstep
        cases rest with
        | nil => exact Except.noConfusion hstep
        | cons r rs =>
          injection hstep with hstep
          subst hstep
          refine ⟨⟨r, rs, rfl⟩, mono2 _ ?_⟩
          rw [dictSet_lookup]
          simp
      · exact rest2 l2 hl2 t rest htoks hsharp

theorem parse_aux_not_ok {lines : List String}
    (hbad : ∃ l ∈ lines, ∃ t, pySplit l = [t] ∧ ¬ t = "#") :
    ∀ acc m, lines.foldlM parse_config_line acc = Except.ok m → False := by
  induction lines with
  | nil =>
    obtain ⟨l, hl, _⟩ := hbad
    exact absurd hl (List.not_mem_nil l)
  | cons l ls ih =>
    intro acc m h
    rw [List.foldlM_cons] at h
    cases hstep : parse_config_line acc l with
    | error e =>
      rw [hstep] at h
      exact Except.noConfusion h
    | ok acc2 =>
      rw [hstep] at h
      obtain ⟨l2, hl2, t, htoks, hsharp⟩ := hbad
      rcases List.mem_cons.mp hl2 with rfl | hl2
      · simp only [parse_config_line, htoks] at hstep
        rw [if_neg hsharp] at hstep
        exact Except.noConfusion hstep
      · exact ih ⟨l2, hl2, t, htoks, hsharp⟩ acc2 m h

/-- C10: `parse_config_file` is not total over its documented format when
run on a non-empty non-comment line holding exactly one token: the
`reduce` over the empty remainder raises an uncaught `TypeError` (the
process crashes instead of producing an entry or a file-access error);
and on every successful parse each non-skipped line had at least two
tokens and contributed an entry under its lowercased first token. -/
theorem c10_one_token_line_crashes :
    ∀ (lines : List String),
      ((∃ l ∈ lines, ∃ t, pySplit l = [t] ∧ ¬ t = "#") →
        parse_config_file lines = Except.error PyErr.typeError) ∧
      (∀ m, parse_config_file lines = Except.ok m →
        ∀ l ∈ lines, ∀ t rest, pySplit l = t :: rest → ¬ t = "#" →
          (∃ r rs, rest = r :: rs) ∧ (m.lookup (pyLower t)).isSome) := by
  intro lines
  constructor
  · intro hbad
    cases hres : parse_config_file lines with
    | error e =>
      cases e
      rfl
    | ok m => exact absurd hres (fun h0 => parse_aux_not_ok hbad [] m h0)
  · intro m h
    exact (parse_aux_ok h).2

theorem c10_one_token_line_crashes_witness :
    parse_config_file ["device /dev/comedi0", "verbose"] = Except.error PyErr.typeError ∧
    (∃ r rs, ["/dev/comedi0"] = r :: rs) := by
  constructor
  · exact (c10_one_token_line_crashes ["device /dev/comedi0", "verbose"]).1
      ⟨"verbose", by simp, "verbose", by decide, by decide⟩
  · exact ((c10_one_token_line_crashes ["device /dev/comedi0"]).2
      [("device", "/dev/comedi0")] (by decide) "device /dev/comedi0" (by simp)
      "device" ["/dev/comedi0"] (by decide) (by decide)).1

/-- Modelled from the spec words "round(1e9 / sample_freq) nanoseconds
(nearest-integer rounding of the quotient)": round-to-nearest of `a / b`
(halves up; the counterexample below is far from a half). -/
def specRoundNearest (a b : Nat) : Nat :=
  (2 * a + b) / (2 * b)

/-- C6 counterexample: at the valid sampling frequency 6 Hz the command
descriptor built by `acquire_data` carries
`scan_begin_arg = int(1e9/6) = 166666666`, while nearest-integer
rounding of `1e9/6` is `166666667`.  The code truncates; it does not
round. -/
theorem c6_scan_begin_counterexample :
    (acquire_data
      { device := some (Value.str "/dev/comedi0"), sample_num := some (Value.int 1),
        sample_freq := some (Value.int 6), channels := some (Value.intList [0]),
        gains := some (Value.intList [0]), subdev := some (Value.int 0),
        output_file := some Value.null, config_file := some Value.null,
        verbose := some (Value.bool false), plot := some (Value.bool false),
        aref := some (Value.str "ground") }
      ⟨true, fun _ => 0, 0, [], fun _ _ _ _ => 0⟩).cmd
      = some (build_cmd 0 6 1 [cr_pack 0 0 AREF_GROUND] 1) ∧
    (build_cmd 0 6 1 [cr_pack 0 0 AREF_GROUND] 1).scan_begin_arg = 166666666 ∧
    specRoundNearest 1000000000 6 = 166666667 ∧
    ¬ (build_cmd 0 6 1 [cr_pack 0 0 AREF_GROUND] 1).scan_begin_arg
        = specRoundNearest 1000000000 6 := by
  refine ⟨?_, by decide, by decide, by decide⟩
  rfl

/-- C6 amended: for every validated configuration with `sample_freq > 0`
the scan-begin interval of the built command descriptor is the
truncation (floor) of `1e9 / sample_freq`, characterized by the two
floor inequalities. -/
theorem c6_scan_begin_floor :
    ∀ (subdev freq snum : Int) (cl : List Nat) (n : Nat), 0 < freq →
      (build_cmd subdev freq snum cl n).scan_begin_arg * freq.toNat ≤ 1000000000 ∧
      1000000000 < ((build_cmd subdev freq snum cl n).scan_begin_arg + 1) * freq.toNat := by
  intro subdev freq snum cl n hf
  have hft : 0 < freq.toNat := by omega
  constructor
  · exact Nat.div_mul_le_self _ _
  · exact (Nat.div_lt_iff_lt_mul hft).mp (Nat.lt_succ_self _)

theorem c6_scan_begin_floor_witness :
    0 < (6 : Int) ∧
    (build_cmd 0 6 1000 [] 0).scan_begin_arg * (6 : Int).toNat ≤ 1000000000 ∧
    1000000000 < ((build_cmd 0 6 1000 [] 0).scan_begin_arg + 1) * (6 : Int).toNat :=
  ⟨by decide, c6_scan_begin_floor 0 6 1000 [] 0 (by decide)⟩

/-- C8 counterexample: with `sample_num = 1` and one channel
(`bytes_total = 2`), the non-empty chunk sequence `[7]`, `[8,9]`
(each chunk at most `bytes_total` bytes, as `os.read` guarantees)
overshoots: the accumulated count jumps from 1 to 3 and never equals 2,
so the loop never terminates with the expected byte count — the modelled
stream is exhausted (`starved`) with 3 ≠ 2 bytes accumulated. -/
theorem c8_read_loop_counterexample :
    read_loop (2 * 1 * 1) [] [ReadResult.chunk [7], ReadResult.chunk [8, 9]] =
      ReadOutcome.starved [7, 8, 9] ∧
    ¬ ([7, 8, 9] : List Nat).length = 2 * 1 * 1 := by
  decide

/-- The cumulative chunk lengths starting from `n` hit `total` exactly
at some prefix, without overshooting first. -/
def hitsExactly (total : Nat) : Nat → List Nat → Prop
  | _, [] => False
  | n, l :: ls => n + l = total ∨ (n + l < total ∧ hitsExactly total (n + l) ls)

/-- C8 amended: a read failing with the transient interruption errno 4
is retried in place and any other errno propagates out of the loop; and
for every chunk sequence whose running byte count reaches
`2 * sample_num * nchans` exactly, the loop terminates having
accumulated exactly that many bytes.  (The unrestricted claim is false:
see the counterexample — a sequence that overshoots the total never
satisfies the `==` exit test.) -/
theorem c8_read_loop_amended :
    (∀ (bt : Nat) (acc : List Nat) (rest : List ReadResult) (e : Nat), ¬ e = 4 →
      read_loop bt acc (ReadResult.oserr e :: rest) = ReadOutcome.raised e) ∧
    (∀ (bt : Nat) (acc : List Nat) (rest : List ReadResult),
      read_loop bt acc (ReadResult.oserr 4 :: rest) = read_loop bt acc rest) ∧
    (∀ (cs : List (List Nat)) (acc : List Nat) (sample_num nchans : Nat),
      hitsExactly (2 * sample_num * nchans) acc.length (cs.map List.length) →
      ∃ d, read_loop (2 * sample_num * nchans) acc (cs.map ReadResult.chunk)
            = ReadOutcome.done d ∧ d.length = 2 * sample_num * nchans) := by
  refine ⟨?_, ?_, ?_⟩
  · intro bt acc rest e he
    simp only [read_loop]
    rw [if_neg he]
  · intro bt acc rest
    simp only [read_loop]
    simp
  · intro cs
    induction cs with
    | nil =>
      intro acc sample_num nchans hhit
      exact absurd hhit (by simp [hitsExactly])
    | cons c cs ih =>
      intro acc sample_num nchans hhit
      simp only [List.map_cons, read_loop]
      rcases hhit with hexact | ⟨hlt, hrest⟩
      · rw [if_pos (by rw [List.length_append]; exact hexact)]
        exact ⟨acc ++ c, rfl, by rw [List.length_append]; exact hexact⟩
      · rw [if_neg (by rw [List.length_append]; omega)]
        exact ih (acc ++ c) sample_num nchans (by rw [List.length_append]; exact hrest)

theorem c8_read_loop_amended_witness :
    read_loop 4 [] [ReadResult.oserr 5] = ReadOutcome.raised 5 ∧
    read_loop 4 [] [ReadResult.oserr 4, ReadResult.chunk [1, 2, 3, 4]]
      = read_loop 4 [] [ReadResult.chunk [1, 2, 3, 4]] ∧
    (∃ d, read_loop (2 * 2 * 1) []
        ([[1, 2], [3, 4]].map ReadResult.chunk) = ReadOutcome.done d ∧
        d.length = 2 * 2 * 1) := by
  refine ⟨?_, ?_, ?_⟩
  · exact c8_read_loop_amended.1 4 [] [] 5 (by decide)
  · exact c8_read_loop_amended.2.1 4 [] [ReadResult.chunk [1, 2, 3, 4]]
  · exact c8_read_loop_amended.2.2 [[1, 2], [3, 4]] [] 2 1
      (Or.inr ⟨by decide, Or.inl (by decide)⟩)

/-- C9: for every validated-shape configuration and device, when the
final (4th) `comedi_command_test` returns a non-success code, the
configuration-failure message is written to standard error but the
process does not exit there: execution proceeds to `comedi_command`, and
the run ends with exit status 1 exactly when the command execution
fails. -/
theorem c9_test_failure_nonfatal :
    ∀ (c : Cfg) (dev : Device) (chans gains : List Int) (ar : String) (sd f sn : Int),
      dev.openOk = true →
      c.channels = some (Value.intList chans) → c.gains = some (Value.intList gains) →
      c.aref = some (Value.str ar) →
      (pyLower ar = "diff" ∨ pyLower ar = "common" ∨ pyLower ar = "ground") →
      c.subdev = some (Value.int sd) → c.sample_freq = some (Value.int f) →
      c.sample_num = some (Value.int sn) →
      ¬ gains.length < chans.length → 0 < f → 0 < sn →
      ¬ dev.testResult 3 = 0 → dev.testResult 3 < 6 →
      ((PROG_NAME ++ ": error: unable to configure daq device - "
          ++ CMD_TEST_MSG.getD (dev.testResult 3) "") ∈ (acquire_data c dev).stderrLog ∧
       ((acquire_data c dev).outcome = AcqOutcome.exit 1 ↔ ¬ dev.commandRet = 0)) := by
  intro c dev chans gains ar sd f sn hopen hch hg ha hlow hsd hf hsn hlen hfpos hsnpos htest htlt
  have hnf : ¬ (f ≤ 0 ∨ sn ≤ 0) := by omega
  have hret : ¬ 6 ≤ dev.testResult 3 := by omega
  simp only [acquire_data, hopen, hch, hg, ha, hsd, hf, hsn]
  rw [if_neg (by simp)]
  have haref : ∃ code,
      (if pyLower ar = "diff" then some AREF_DIFF
       else if pyLower ar = "common" then some AREF_COMMON
       else if pyLower ar = "ground" then some AREF_GROUND
       else Option.none) = some code := by
    rcases hlow with h | h | h <;> rw [h] <;> simp
  obtain ⟨code, hcode⟩ := haref
  simp only [hcode]
  rw [if_neg hlen, if_neg hnf, if_neg hret, if_pos htest]
  by_cases hcmd : dev.commandRet = 0
  · rw [if_neg (by simpa using hcmd)]
    cases read_loop (2 * sn.toNat * chans.length) [] dev.stream with
    | raised e => exact ⟨by simp, by simp [hcmd]⟩
    | starved acc => exact ⟨by simp, by simp [hcmd]⟩
    | done data => exact ⟨by simp, by simp [hcmd]⟩
  · rw [if_pos (by simpa using hcmd)]
    exact ⟨by simp, by simp [hcmd]⟩

theorem c9_test_failure_nonfatal_witness :
    ((PROG_NAME ++ ": error: unable to configure daq device - "
        ++ CMD_TEST_MSG.getD 3 "") ∈
      (acquire_data
        { device := some (Value.str "/dev/comedi0"), sample_num := some (Value.int 1),
          sample_freq := some (Value.int 1000), channels := some (Value.intList [0]),
          gains := some (Value.intList [0]), subdev := some (Value.int 0),
          output_file := some Value.null, config_file := some Value.null,
          verbose := some (Value.bool false), plot := some (Value.bool false),
          aref := some (Value.str "ground") }
        ⟨true, fun _ => 3, 1, [], fun _ _ _ _ => 0⟩).stderrLog) ∧
    ((acquire_data
        { device := some (Value.str "/dev/comedi0"), sample_num := some (Value.int 1),
          sample_freq := some (Value.int 1000), channels := some (Value.intList [0]),
          gains := some (Value.intList [0]), subdev := some (Value.int 0),
          output_file := some Value.null, config_file := some Value.null,
          verbose := some (Value.bool false), plot := some (Value.bool false),
          aref := some (Value.str "ground") }
        ⟨true, fun _ => 3, 1, [], fun _ _ _ _ => 0⟩).outcome
      = AcqOutcome.exit 1 ↔ ¬ (1 : Int) = 0) :=
  c9_test_failure_nonfatal
    { device := some (Value.str "/dev/comedi0"), sample_num := some (Value.int 1),
      sample_freq := some (Value.int 1000), channels := some (Value.intList [0]),
      gains := some (Value.intList [0]), subdev := some (Value.int 0),
      output_file := some Value.null, config_file := some Value.null,
      verbose := some (Value.bool false), plot := some (Value.bool false),
      aref := some (Value.str "ground") }
    ⟨true, fun _ => 3, 1, [], fun _ _ _ _ => 0⟩
    [0] [0] "ground" 0 1000 1 rfl rfl rfl rfl (Or.inr (Or.inr (by decide))) rfl rfl rfl
    (by decide) (by decide) (by decide) (by decide) (by decide)

/-- C2 counterexample: on a command line with no flags at all (so
`verbose` and `plot` are unset), the option bag produced by
`process_options` still contains the keys `verbose` and `plot` — their
optparse defaults are `False`, not `None`, so the `del`-if-`None` loop
never removes them.  This refutes the claim that every unset field is
omitted "for every recognized option, including verbose and plot". -/
theorem c2_verbose_plot_counterexample :
    (process_options {}).get Key.verbose = some (Value.bool false) ∧
    (process_options {}).get Key.plot = some (Value.bool false) ∧
    Key.verbose ∈ (process_options {}).keysList ∧
    Key.plot ∈ (process_options {}).keysList := by
  refine ⟨rfl, rfl, ?_, ?_⟩ <;> decide

/-- C2 amended: for the nine value-typed options the bag contains the
key exactly when the flag was given on the command line; `verbose` and
`plot` are present on every invocation (carrying `False` when their flag
is absent), so those two keys are always claimed by the CLI source and a
config file can never supply them. -/
theorem c2_option_bag_amended :
    ∀ cl : CmdLine,
      (((process_options cl).get Key.device).isSome ↔ cl.device.isSome) ∧
      (((process_options cl).get Key.sample_num).isSome ↔ cl.sample_num.isSome) ∧
      (((process_options cl).get Key.sample_freq).isSome ↔ cl.sample_freq.isSome) ∧
      (((process_options cl).get Key.channels).isSome ↔ cl.channels.isSome) ∧
      (((process_options cl).get Key.gains).isSome ↔ cl.gains.isSome) ∧
      (((process_options cl).get Key.subdev).isSome ↔ cl.subdev.isSome) ∧
      (((process_options cl).get Key.output_file).isSome ↔ cl.output_file.isSome) ∧
      (((process_options cl).get Key.config_file).isSome ↔ cl.config_file.isSome) ∧
      (((process_options cl).get Key.aref).isSome ↔ cl.aref.isSome) ∧
      (process_options cl).get Key.verbose = some (Value.bool cl.verbose) ∧
      (process_options cl).get Key.plot = some (Value.bool cl.plot) := by
  intro cl
  refine ⟨?_, ?_, ?_, ?_, ?_, ?_, ?_, ?_, ?_, rfl, rfl⟩ <;>
    simp [process_options]

/-- The result of validating the default configuration: the two
string-valued lists are converted and the singleton default gain is
broadcast to the eight default channels. -/
def defaultValidated : Cfg :=
  { defaultConfig with
      channels := some (Value.intList [0, 1, 2, 3, 4, 5, 6, 7]),
      gains := some (Value.intList [0, 0, 0, 0, 0, 0, 0, 0]) }

theorem process_config_default :
    process_config defaultConfig "default config" = Except.ok defaultValidated := rfl

/-- C5: when the command line supplies `config_file` (the `-i` option)
with a path and the path does not exist, `set_config` fails with exit
status 1 and a message naming the path — for every state of the
current-directory and home-directory files, whose contents are therefore
never consulted.  (The only further hypothesis is that the command-line
bag itself validates; otherwise the run has already exited earlier with
a different message.) -/
theorem c5_missing_named_config :
    ∀ (cl : CmdLine) (env : Env) (p : String),
      cl.config_file = some p → env.namedExists = false →
      (∃ cli2, process_config (process_options cl) "command line config" = Except.ok cli2) →
      set_config cl env = Except.error
        ⟨PROG_NAME ++ ": error: option -i: configuration file \x27" ++ p ++ "\x27 not found",
         1⟩ := by
  intro cl env p hcf hne hcli
  obtain ⟨cli2, hcli⟩ := hcli
  have hcf2 : cli2.config_file = some (Value.str p) := by
    have hpg := process_config_get hcli Key.config_file (by decide)
    simp only [Cfg.get_config_file] at hpg
    rw [hpg]
    simp [process_options, hcf, normAt]
  simp only [set_config, process_config_default, hcli]
  simp only [namedFileStep, hcf2, hne]
  rfl

theorem c5_missing_named_config_witness :
    set_config { config_file := some "missing.cfg" } {} = Except.error
      ⟨PROG_NAME ++ ": error: option -i: configuration file \x27" ++ "missing.cfg"
         ++ "\x27 not found", 1⟩ :=
  c5_missing_named_config { config_file := some "missing.cfg" } {} "missing.cfg" rfl rfl
    ⟨{ config_file := some (Value.str "missing.cfg"), verbose := some (Value.bool false),
       plot := some (Value.bool false) }, by decide⟩

-- ---------------------------------------------------------------------
-- Precedence of the four configuration sources (claim C1)
-- ---------------------------------------------------------------------

/-- The raw (pre-validation) value the command line supplies for a key. -/
def rawCli (cl : CmdLine) (k : Key) : Option Value :=
  (process_options cl).get k

/-- The raw value the `-i` config file supplies: consulted only when the
command line names a config file and the path exists. -/
def rawNamed (cl : CmdLine) (env : Env) (k : Key) : Option Value :=
  if (cl.config_file).isSome ∧ env.namedExists then (env.namedFile k).map Value.str
  else Option.none

/-- The raw value the current-directory `daq-config` file supplies. -/
def rawCurr (env : Env) (k : Key) : Option Value :=
  if env.currExists then (env.currFile k).map Value.str else Option.none

/-- The raw value the home-directory `.daq-acquire` file supplies. -/
def rawHome (env : Env) (k : Key) : Option Value :=
  if env.homeExists then (env.homeFile k).map Value.str else Option.none

/-- Modelled from the spec words "CLI options > explicitly named config
file (`-i`) > current-directory config file > home-directory config file
> built-in defaults": the raw value of the highest-precedence source
supplying the key, falling back to the built-in default. -/
def rawWinner (cl : CmdLine) (env : Env) (k : Key) : Option Value :=
  ((((rawCli cl k).orElse fun _ => rawNamed cl env k).orElse fun _ =>
      rawCurr env k).orElse fun _ => rawHome env k).orElse fun _ => defaultConfig.get k

/-- The invariant maintained across the merge steps of `set_config`:
`p.1` is the merged dict so far, `p.2` the used-key list, and `pick k`
the raw value of the highest-precedence already-consumed source
supplying `k` (defaults are the ever-present fallback and never claim a
key).  Every key of the merged dict is populated; a non-`gains` key
holds the `normAt`-image of its winner-so-far; `gains` holds the
normalized winner, possibly broadcast (list-repeated) by some count. -/
def StageInv (pick : Key → Option Value) (p : Cfg × List Key) : Prop :=
  p.2.Nodup ∧
  (∀ k, k ∈ p.2 ↔ (pick k).isSome) ∧
  (∀ k, ((p.1).get k).isSome) ∧
  (∀ k, ¬ k = Key.gains →
    (p.1).get k = (((pick k).orElse fun _ => defaultConfig.get k).bind (normAt k))) ∧
  (∃ v gs, ((pick Key.gains).orElse fun _ => defaultConfig.get Key.gains) = some v ∧
    normAt Key.gains v = some (Value.intList gs) ∧
    ((p.1).gains = some (Value.intList gs) ∨
     (gs.length = 1 ∧ ∃ m, (p.1).gains = some (Value.intList (pyListMul gs m)))))

theorem defaultValidated_isSome : ∀ k, ((defaultValidated.get k).isSome : Prop) := by
  intro k
  cases k <;> rfl

theorem defaultValidated_norm :
    ∀ k, ¬ k = Key.gains → defaultValidated.get k = (defaultConfig.get k).bind (normAt k) := by
  intro k hk
  cases k <;> first | exact absurd rfl hk | decide

theorem keysList_all {c : Cfg} (hall : ∀ k, ((c.get k).isSome : Prop)) :
    c.keysList = allKeys :=
  List.filter_eq_self.mpr fun a _ => hall a

theorem nodup_full {l : List Key} (hnd : l.Nodup) (hlen : l.length = allKeys.length) :
    ∀ k, k ∈ l := by
  intro k
  have hsub : l.toFinset ⊆ allKeys.toFinset := fun x _ => List.mem_toFinset.mpr (mem_allKeys x)
  have hcard1 : l.toFinset.card = l.length := List.toFinset_card_of_nodup hnd
  have hcard2 : allKeys.toFinset.card = allKeys.length :=
    List.toFinset_card_of_nodup (by decide)
  have heq : l.toFinset = allKeys.toFinset :=
    Finset.eq_of_subset_of_card_le hsub (by rw [hcard1, hcard2, hlen])
  exact List.mem_toFinset.mp (heq ▸ List.mem_toFinset.mpr (mem_allKeys k))

/-- After seeding with validated defaults and merging the validated
command-line bag, the invariant holds with the CLI as the only consumed
source. -/
theorem stage1_inv {cl : CmdLine} {oc : Cfg}
    (hcli : process_config (process_options cl) "command line config" = Except.ok oc) :
    StageInv (rawCli cl) (defaultValidated.update oc, oc.keysList) := by
  have hiso := process_config_isSome hcli
  refine ⟨keysList_nodup oc, ?_, ?_, ?_, ?_⟩
  · intro k
    rw [mem_keysList, hiso k]
    exact Iff.rfl
  · intro k
    rw [Cfg.get_update]
    cases hoc : oc.get k with
    | some v => rfl
    | none =>
      rw [Option.none_orElse']
      exact defaultValidated_isSome k
  · intro k hk
    rw [Cfg.get_update]
    cases hr : (process_options cl).get k with
    | some v =>
      have hval := process_config_get hcli k hk
      rw [hr] at hval
      have hsome : (oc.get k).isSome := by
        rw [hiso k, hr]
        rfl
      cases hoc : oc.get k with
      | none => rw [hoc] at hsome; exact Bool.noConfusion hsome
      | some w =>
        rw [Option.some_orElse']
        unfold rawCli
        rw [hr, Option.some_orElse']
        rw [hoc] at hval
        exact hval
    | none =>
      have hocn : oc.get k = Option.none := by
        have := hiso k
        rw [hr] at this
        cases hoc : oc.get k with
        | none => rfl
        | some w => rw [hoc] at this; exact Bool.noConfusion this
      rw [hocn, Option.none_orElse']
      unfold rawCli
      rw [hr, Option.none_orElse']
      exact defaultValidated_norm k hk
  · obtain ⟨hgn, hgs⟩ := process_config_gains hcli
    cases hr : (process_options cl).get Key.gains with
    | some v =>
      have hr2 : (process_options cl).gains = some v := hr
      obtain ⟨gs, hnorm, hcase⟩ := hgs v hr2
      refine ⟨v, gs, ?_, hnorm, ?_⟩
      · unfold rawCli
        rw [hr, Option.some_orElse']
      · have hupd : (defaultValidated.update oc).gains = oc.gains := by
          have hsome : (oc.gains).isSome := by
            have hh := hiso Key.gains
            simp only [Cfg.get_gains] at hh
            rw [hh, hr2]
            rfl
          cases hoc : oc.gains with
          | none => rw [hoc] at hsome; exact Bool.noConfusion hsome
          | some w => simp [Cfg.update, hoc, Option.some_orElse']
        rw [hupd]
        exact hcase
    | none =>
      have hocn : oc.gains = Option.none := hgn hr
      refine ⟨Value.str "0", [0], ?_, by decide, ?_⟩
      · unfold rawCli
        rw [hr, Option.none_orElse']
        rfl
      · right
        refine ⟨rfl, 8, ?_⟩
        have hupd : (defaultValidated.update oc).gains = defaultValidated.gains := by
          simp [Cfg.update, hocn, Option.none_orElse']
        rw [hupd]
        decide

/-- One file-merge step (strip used keys, validate, merge, extend the
used list) moves the invariant from `pick` to `pick` extended by the
file as the next-lower-precedence source. -/
theorem fileMergeInv {pick : Key → Option Value} {p : Cfg × List Key}
    {file : Key → Option String} {cc : Cfg} {src : String}
    (hinv : StageInv pick p)
    (hfc : process_config (removeKeys (fileAsCfg file) p.2) src = Except.ok cc) :
    StageInv (fun k => (pick k).orElse fun _ => (file k).map Value.str)
      (p.1.update cc, p.2 ++ cc.keysList) := by
  obtain ⟨hnd, hmem, hall, hval, hgains⟩ := hinv
  have hiso := process_config_isSome hfc
  have hget := process_config_get hfc
  have hccSome : ∀ k, ((cc.get k).isSome : Prop) ↔ (¬ k ∈ p.2 ∧ (file k).isSome) := by
    intro k
    rw [hiso k, get_removeKeys]
    by_cases hk : k ∈ p.2
    · simp [hk]
    · simp [hk, get_fileAsCfg]
  refine ⟨?_, ?_, ?_, ?_, ?_⟩
  · rw [List.nodup_append]
    refine ⟨hnd, keysList_nodup cc, ?_⟩
    intro k hk1 hk2
    exact ((hccSome k).mp (mem_keysList.mp hk2)).1 hk1
  · intro k
    show k ∈ p.2 ++ cc.keysList ↔
      (((pick k).orElse fun _ => (file k).map Value.str).isSome : Prop)
    rw [List.mem_append, hmem k, mem_keysList, hccSome k]
    cases hpk : pick k with
    | some u => simp [Option.some_orElse']
    | none =>
      have hkk : ¬ k ∈ p.2 := fun hm => by
        have hx := (hmem k).mp hm
        rw [hpk] at hx
        exact Bool.noConfusion hx
      simp [Option.none_orElse', hkk, Option.isSome_map]
  · intro k
    rw [Cfg.get_update]
    cases hck : cc.get k with
    | some w => rfl
    | none =>
      rw [Option.none_orElse']
      exact hall k
  · intro k hk
    show (p.1.update cc).get k =
      (((pick k).orElse fun _ => (file k).map Value.str).orElse fun _ =>
        defaultConfig.get k).bind (normAt k)
    rw [Cfg.get_update]
    cases hck : cc.get k with
    | some w =>
      rw [Option.some_orElse']
      have hv := hget k hk
      rw [get_removeKeys] at hv
      have hkk : ¬ k ∈ p.2 := ((hccSome k).mp (by rw [hck]; rfl)).1
      rw [if_neg hkk, get_fileAsCfg] at hv
      have hpickn : pick k = Option.none := by
        cases hpk : pick k with
        | none => rfl
        | some u => exact absurd ((hmem k).mpr (by rw [hpk]; rfl)) hkk
      rw [hpickn, Option.none_orElse']
      cases hfk : file k with
      | none =>
        rw [hck, hfk] at hv
        exact Option.noConfusion hv
      | some raw =>
        rw [hck, hfk] at hv
        simp only [Option.map_some'] at hv ⊢
        rw [Option.some_orElse']
        exact hv
    | none =>
      rw [Option.none_orElse', hval k hk]
      congr 1
      cases hpk : pick k with
      | some u => simp [Option.some_orElse']
      | none =>
        rw [Option.none_orElse', Option.none_orElse']
        have hkk : ¬ k ∈ p.2 := fun hm => by
          have hx := (hmem k).mp hm
          rw [hpk] at hx
          exact Bool.noConfusion hx
        have hfk : file k = Option.none := by
          cases hfk2 : file k with
          | none => rfl
          | some raw =>
            have hx := (hccSome k).mpr ⟨hkk, by rw [hfk2]; rfl⟩
            rw [hck] at hx
            exact Bool.noConfusion hx
        rw [hfk]
        simp [Option.none_orElse']
  · show ∃ v gs,
      (((pick Key.gains).orElse fun _ => (file Key.gains).map Value.str).orElse fun _ =>
        defaultConfig.get Key.gains) = some v ∧
      normAt Key.gains v = some (Value.intList gs) ∧
      ((p.1.update cc).gains = some (Value.intList gs) ∨
       (gs.length = 1 ∧ ∃ m, (p.1.update cc).gains = some (Value.intList (pyListMul gs m))))
    obtain ⟨v0, gs0, hpick0, hnorm0, hcase0⟩ := hgains
    cases hck : cc.gains with
    | some w =>
      obtain ⟨hgn2, hgs2⟩ := process_config_gains hfc
      have hcksome : ((cc.get Key.gains).isSome : Prop) := by
        simp only [Cfg.get_gains, hck]
        rfl
      obtain ⟨hknotmem, hfsome⟩ := (hccSome Key.gains).mp hcksome
      cases hfk : file Key.gains with
      | none =>
        rw [hfk] at hfsome
        exact Bool.noConfusion hfsome
      | some raw =>
        have hinput : (removeKeys (fileAsCfg file) p.2).gains = some (Value.str raw) := by
          have hrk := get_removeKeys (fileAsCfg file) p.2 Key.gains
          simp only [Cfg.get_gains] at hrk
          rw [hrk, if_neg hknotmem]
          show (file Key.gains).map Value.str = some (Value.str raw)
          rw [hfk]
          rfl
        obtain ⟨gs, hnorm, hcase⟩ := hgs2 (Value.str raw) hinput
        have hpickn : pick Key.gains = Option.none := by
          cases hpk : pick Key.gains with
          | none => rfl
          | some u => exact absurd ((hmem Key.gains).mpr (by rw [hpk]; rfl)) hknotmem
        refine ⟨Value.str raw, gs, ?_, hnorm, ?_⟩
        · rw [hpickn]
          simp [Option.none_orElse', Option.some_orElse']
        · have hupd : (p.1.update cc).gains = cc.gains := by
            simp [Cfg.update, hck]
          rw [hupd]
          exact hcase
    | none =>
      have hupd : (p.1.update cc).gains = p.1.gains := by
        simp [Cfg.update, hck, Option.none_orElse']
      refine ⟨v0, gs0, ?_, hnorm0, by rw [hupd]; exact hcase0⟩
      cases hpk : pick Key.gains with
      | some u =>
        rw [hpk, Option.some_orElse'] at hpick0
        simp only [Option.some_orElse']
        exact hpick0
      | none =>
        have hknotmem : ¬ Key.gains ∈ p.2 := fun hm => by
          have hx := (hmem Key.gains).mp hm
          rw [hpk] at hx
          exact Bool.noConfusion hx
        have hfk : file Key.gains = Option.none := by
          cases hfk2 : file Key.gains with
          | none => rfl
          | some raw =>
            have hx := (hccSome Key.gains).mpr ⟨hknotmem, by rw [hfk2]; rfl⟩
            rw [show cc.get Key.gains = cc.gains from rfl, hck] at hx
            exact Bool.noConfusion hx
        rw [hpk, Option.none_orElse'] at hpick0
        rw [hfk]
        simp only [Option.none_orElse', Option.map_none']
        exact hpick0

theorem StageInv_congr {pick1 pick2 : Key → Option Value} {p : Cfg × List Key}
    (hpp : ∀ k, pick1 k = pick2 k) (h : StageInv pick1 p) : StageInv pick2 p := by
  have he : pick1 = pick2 := funext hpp
  rwa [← he]

theorem dirFileStep_inv {src : String} {fex : Bool} {file : Key → Option String}
    {pick : Key → Option Value} {p p' : Cfg × List Key}
    (hinv : StageInv pick p)
    (hstep : dirFileStep src fex file p = Except.ok p') :
    StageInv (fun k => (pick k).orElse fun _ =>
      if fex then (file k).map Value.str else Option.none) p' := by
  unfold dirFileStep at hstep
  split at hstep
  next hcond =>
    obtain ⟨hlen, hfex⟩ := hcond
    cases hfc : process_config (removeKeys (fileAsCfg file) p.2) src with
    | error e => rw [hfc] at hstep; exact Except.noConfusion hstep
    | ok cc =>
      rw [hfc] at hstep
      injection hstep with hstep
      subst hstep
      refine StageInv_congr ?_ (fileMergeInv hinv hfc)
      intro k
      simp only [hfex, if_true]
  next hcond =>
    injection hstep with hstep
    subst hstep
    by_cases hfex : fex = true
    · have hlen : p.2.length = p.1.keysList.length := by
        by_contra hne
        exact hcond ⟨hne, hfex⟩
      obtain ⟨hnd, hmem, hall, hval, hgains⟩ := hinv
      have hcov : ∀ k, ((pick k).isSome : Prop) := by
        intro k
        apply (hmem k).mp
        apply nodup_full hnd ?_ k
        rw [hlen, keysList_all hall]
      refine StageInv_congr ?_
        (show StageInv pick p from ⟨hnd, hmem, hall, hval, hgains⟩)
      intro k
      cases hpk : pick k with
      | some u => rw [Option.some_orElse']
      | none =>
        have hc := hcov k
        rw [hpk] at hc
        exact absurd hc (by simp)
    · have hfex2 : fex = false := by
        revert hfex
        cases fex <;> simp
      refine StageInv_congr ?_ hinv
      intro k
      simp [hfex2, Option.orElse_none']

theorem namedFileStep_inv {cl : CmdLine} {env : Env} {oc : Cfg}
    {pick : Key → Option Value} {p p' : Cfg × List Key}
    (hinv : StageInv pick p)
    (hocfg : oc.config_file = (cl.config_file).map Value.str)
    (hstep : namedFileStep env oc p = Except.ok p') :
    StageInv (fun k => (pick k).orElse fun _ => rawNamed cl env k) p' := by
  unfold namedFileStep at hstep
  split at hstep
  next hcf =>
    injection hstep with hstep
    subst hstep
    have hcln : cl.config_file = Option.none := by
      cases hcl2 : cl.config_file with
      | none => rfl
      | some q =>
        rw [hcf, hcl2] at hocfg
        exact Option.noConfusion hocfg
    refine StageInv_congr ?_ hinv
    intro k
    simp [rawNamed, hcln, Option.orElse_none']
  next cfv hcf =>
    split at hstep
    next hne =>
      cases hfc : process_config (removeKeys (fileAsCfg env.namedFile) p.2)
          "file config option -i" with
      | error e => rw [hfc] at hstep; exact Except.noConfusion hstep
      | ok cc =>
        rw [hfc] at hstep
        injection hstep with hstep
        subst hstep
        have hcls : ((cl.config_file).isSome : Prop) := by
          cases hcl2 : cl.config_file with
          | some q => rfl
          | none =>
            rw [hcf, hcl2] at hocfg
            exact Option.noConfusion hocfg
        refine StageInv_congr ?_ (fileMergeInv hinv hfc)
        intro k
        simp [rawNamed, hcls, hne]
    next hne =>
      exact Except.noConfusion hstep

/-- C1: `set_config` resolves the four sources with strict precedence.
For every command line, filesystem state and successful resolution:
every recognized key is populated; every key other than `gains` holds
exactly the validated (`normAt`) image of the raw value of the
highest-precedence source supplying it (`rawWinner`: CLI > named `-i`
file > current-directory file > home-directory file > built-in default),
so a key supplied by a higher-precedence source is never overwritten by
a lower one; and `gains` holds the validated winner as well, either
verbatim or — exactly when that winner is a singleton, as the spec's
broadcast rule prescribes — repeated to the length of the resolved
channel list. -/
theorem c1_source_precedence :
    ∀ (cl : CmdLine) (env : Env) (cfg : Cfg), set_config cl env = Except.ok cfg →
      (∀ k, ((cfg.get k).isSome : Prop)) ∧
      (∀ k, ¬ k = Key.gains → cfg.get k = (rawWinner cl env k).bind (normAt k)) ∧
      (∃ v gs, rawWinner cl env Key.gains = some v ∧
        normAt Key.gains v = some (Value.intList gs) ∧
        (cfg.gains = some (Value.intList gs) ∨
         (gs.length = 1 ∧ ∃ cs, cfg.channels = some (Value.intList cs) ∧
           cfg.gains = some (Value.intList (pyListMul gs cs.length))))) := by
  intro cl env cfg h
  simp only [set_config, process_config_default] at h
  split at h
  next => exact Except.noConfusion h
  next oc hcli =>
    cases hn : namedFileStep env oc (defaultValidated.update oc, oc.keysList) with
    | error e => rw [hn] at h; exact Except.noConfusion h
    | ok p2 =>
      rw [hn] at h
      simp only [exceptOkBind] at h
      cases hd1 : dirFileStep "daq_config" env.currExists env.currFile p2 with
      | error e => rw [hd1] at h; exact Except.noConfusion h
      | ok p3 =>
        rw [hd1] at h
        simp only [exceptOkBind] at h
        cases hd2 : dirFileStep ".daq_acquire" env.homeExists env.homeFile p3 with
        | error e => rw [hd2] at h; exact Except.noConfusion h
        | ok p4 =>
          rw [hd2] at h
          simp only [exceptOkBind] at h
          have hocfg : oc.config_file = (cl.config_file).map Value.str := by
            have hg := process_config_get hcli Key.config_file (by decide)
            simp only [Cfg.get_config_file] at hg
            rw [hg]
            cases hcl2 : cl.config_file <;> simp [process_options, hcl2, normAt]
          have inv1 := stage1_inv hcli
          have inv2 := namedFileStep_inv inv1 hocfg hn
          have inv3 := dirFileStep_inv inv2 hd1
          have inv4 := dirFileStep_inv inv3 hd2
          obtain ⟨_, _, hall4, hval4, hgains4⟩ := inv4
          refine ⟨?_, ?_, ?_⟩
          · intro k
            rw [show ((cfg.get k).isSome : Bool) = ((p4.1.get k).isSome : Bool) from
              process_config_isSome h k]
            exact hall4 k
          · intro k hk
            rw [process_config_get h k hk, hval4 k hk, bind_normAt_idem]
            rfl
          · obtain ⟨v, gs, hpick, hnorm, hcase⟩ := hgains4
            have hch4 := hval4 Key.channels (by decide)
            simp only [Cfg.get_channels] at hch4
            have hchSome : ((p4.1.channels).isSome : Prop) := hall4 Key.channels
            cases hcs : p4.1.channels with
            | none =>
              rw [hcs] at hchSome
              exact absurd hchSome (by simp)
            | some w =>
              rw [hcs] at hch4
              obtain ⟨u, hu1, hu2⟩ := Option.bind_eq_some.mp hch4.symm
              obtain ⟨cs, rfl⟩ := normAt_channels_shape hu2
              have hchfin : cfg.channels = some (Value.intList cs) := by
                have hgc := process_config_get h Key.channels (by decide)
                simp only [Cfg.get_channels] at hgc
                rw [hgc, hcs]
                simpa using normAt_idem hu2
              rcases hcase with hG | ⟨hlen1, m, hG⟩
              · obtain ⟨hlencross, hcross⟩ := process_config_typed_cross hG hcs h
                refine ⟨v, gs, hpick, hnorm, ?_⟩
                rcases hcross with ⟨h1, hb⟩ | ⟨hn1, hb⟩
                · exact Or.inr ⟨h1, cs, hchfin, hb⟩
                · exact Or.inl hb
              · obtain ⟨hlencross, hcross⟩ := process_config_typed_cross hG hcs h
                have hmlen : (pyListMul gs m).length = m := by
                  rw [pyListMul_length, hlen1, mul_one]
                refine ⟨v, gs, hpick, hnorm, Or.inr ⟨hlen1, cs, hchfin, ?_⟩⟩
                rcases hcross with ⟨h1, hb⟩ | ⟨hn1, hb⟩
                · have hm1 : m = 1 := by rw [hmlen] at h1; exact h1
                  rw [hm1, pyListMul_one] at hb
                  exact hb
                · have hmcs : m = cs.length := by
                    rcases hlencross with hx | hx
                    · rw [hmlen] at hx; exact hx
                    · exact absurd hx hn1
                  rw [hmcs] at hb
                  exact hb

/-- Witness for C1: a command line supplying only `sample_freq 2000`,
with a current-directory config file supplying `aref diff` and
`device /dev/x`, resolves successfully; the resolved `aref` equals the
validated raw winner for that key (the current-directory value
`"diff"`, defaults being outranked). -/
theorem c1_source_precedence_witness :
    set_config { sample_freq := some 2000 }
        { currExists := true,
          currFile := fun k => match k with
            | Key.aref => some "diff"
            | Key.device => some "/dev/x"
            | _ => Option.none } =
      Except.ok
        { device := some (Value.str "/dev/x"), sample_num := some (Value.int 1000),
          sample_freq := some (Value.int 2000),
          channels := some (Value.intList [0, 1, 2, 3, 4, 5, 6, 7]),
          gains := some (Value.intList [0, 0, 0, 0, 0, 0, 0, 0]),
          subdev := some (Value.int 0), output_file := some Value.null,
          config_file := some Value.null, verbose := some (Value.bool false),
          plot := some (Value.bool false), aref := some (Value.str "diff") } ∧
    (({ device := some (Value.str "/dev/x"), sample_num := some (Value.int 1000),
        sample_freq := some (Value.int 2000),
        channels := some (Value.intList [0, 1, 2, 3, 4, 5, 6, 7]),
        gains := some (Value.intList [0, 0, 0, 0, 0, 0, 0, 0]),
        subdev := some (Value.int 0), output_file := some Value.null,
        config_file := some Value.null, verbose := some (Value.bool false),
        plot := some (Value.bool false), aref := some (Value.str "diff") } : Cfg).get
      Key.aref = some (Value.str "diff")) ∧
    rawWinner { sample_freq := some 2000 }
        { currExists := true,
          currFile := fun k => match k with
            | Key.aref => some "diff"
            | Key.device => some "/dev/x"
            | _ => Option.none } Key.aref = some (Value.str "diff") := by
  have h := c1_source_precedence
    { sample_freq := some 2000 }
    { currExists := true,
      currFile := fun k => match k with
        | Key.aref => some "diff"
        | Key.device => some "/dev/x"
        | _ => Option.none }
    { device := some (Value.str "/dev/x"), sample_num := some (Value.int 1000),
      sample_freq := some (Value.int 2000),
      channels := some (Value.intList [0, 1, 2, 3, 4, 5, 6, 7]),
      gains := some (Value.intList [0, 0, 0, 0, 0, 0, 0, 0]),
      subdev := some (Value.int 0), output_file := some Value.null,
      config_file := some Value.null, verbose := some (Value.bool false),
      plot := some (Value.bool false), aref := some (Value.str "diff") }
    (by decide)
  refine ⟨by decide, ?_, by decide⟩
  rw [h.2.1 Key.aref (by decide)]
  decide
